import Mathlib

/-!
Verification of the "Mess Up Game" Obsidian plugin (src/main.ts).

The development shallowly embeds the plugin's core: the markdown-to-game
parser `parseMarkdownToGame`, the flexible-group pass, the session
generator `startSession`, and the correctness evaluator (`isSlotCorrect`,
`isBlockFullyRestored`, `checkWinCondition`).

Modelling conventions:
- JavaScript strings are Lean `String`s; the regex tests the source uses
  are re-implemented as decidable predicates over `String.data`.
- `Math.random()` draws are modelled as explicit oracle functions, indexed
  by the position of the draw (the id oracle by a running counter, the
  flex-id oracle by heading and item position, the session oracles by the
  iteration number).  Every run of the real program corresponds to some
  choice of oracles.
- `Array.prototype.sort` with the stability-score comparator is modelled by
  `List.insertionSort` on the (fixed) scores; the shuffle with an
  inconsistent comparator is an oracle function.
- The `while` loop of the parser is driven by a fuel argument equal to the
  number of lines; each step consumes at least one line, so the fuel never
  runs out (`parseStep_shrinks`).
-/

/-! ### Character and string helpers (JS regex/trim semantics) -/

/-- Characters matched by the JavaScript `\s` class (the ones that can occur
in practice; the remaining exotic Unicode space separators behave identically
in every predicate below). -/
def jsWS (c : Char) : Bool :=
  c == ' ' || c == '\t' || c == '\n' || c == '\r' || c == '\x0b' || c == '\x0c' || c == '\u00A0'

/-- Characters that terminate a `.` match in a JavaScript regex. -/
def jsLineTerm (c : Char) : Bool :=
  c == '\n' || c == '\r' || c == '\u2028' || c == '\u2029'

/-- Remove trailing `jsWS` characters. -/
def trimEnd (l : List Char) : List Char :=
  (l.reverse.dropWhile jsWS).reverse

/-- Character-list version of `String.prototype.trim`. -/
def jsTrimChars (l : List Char) : List Char :=
  trimEnd (l.dropWhile jsWS)

/-- `String.prototype.trim`. -/
def jsTrim (s : String) : String :=
  String.mk (jsTrimChars s.data)

/-- `s.startsWith(p)` expressed on the underlying character list. -/
def startsWithChars (s : String) (p : List Char) : Bool :=
  p.isPrefixOf s.data

/-- Normalized leading-whitespace width: `text.match(/^(\s*)/)` with tabs
replaced by four spaces, then the length (so each tab counts 4, every other
whitespace character counts 1). -/
def indentWidth (s : String) : Nat :=
  (s.data.takeWhile jsWS).foldl (fun n c => n + if c == '\t' then 4 else 1) 0

/-- The numbered-list alternative `\d+\.` followed by `\s`, returning the
matched marker `digits.`. -/
def numberedMarker (t : List Char) : Option String :=
  let ds := t.takeWhile Char.isDigit
  if ds.isEmpty then none
  else
    match t.drop ds.length with
    | '.' :: d :: _ => if jsWS d then some (String.mk (ds ++ ['.'])) else none
    | _ => none

/-- Capture group 1 of `/^\s*([-*+]|\d+\.)\s+/`: the literal list marker,
or `none` when the text is not a list item. -/
def listMarkerOf (s : String) : Option String :=
  let t := s.data.dropWhile jsWS
  match t with
  | c :: d :: _ =>
    if (c == '-' || c == '*' || c == '+') && jsWS d then some (String.mk [c])
    else numberedMarker t
  | _ => none

/-- Test of `/^\s*([-*+])\s+/`: an unordered list item (flexible-group pass). -/
def isUnorderedText (s : String) : Bool :=
  match s.data.dropWhile jsWS with
  | c :: d :: _ => (c == '-' || c == '*' || c == '+') && jsWS d
  | _ => false

/-- Match of `/^(#+)\s+(.*)/`: heading level and title.  The `#` run must be
followed by at least one `\s` character; the greedy `\s+` eats the maximal
whitespace run and `(.*)` stops at the first line terminator. -/
def headingParse (line : String) : Option (Nat × String) :=
  let cs := line.data
  let hashes := cs.takeWhile (fun c => c == '#')
  let rest := cs.dropWhile (fun c => c == '#')
  if hashes.isEmpty then none
  else
    match rest with
    | c :: _ =>
      if jsWS c then
        some (hashes.length, String.mk ((rest.dropWhile jsWS).takeWhile (fun ch => !jsLineTerm ch)))
      else none
    | [] => none

/-- The language of `\s*[:\- ]+\s*` (the middle of the separator-row regex).
A word is in it iff, after stripping outer whitespace, the remaining core is
nonempty and made of `:`, `-` and spaces only — or the word is all whitespace
and contains a plain space the `[:\- ]+` part can consume. -/
def sepMiddle (w : List Char) : Bool :=
  let core := trimEnd (w.dropWhile jsWS)
  if core.isEmpty then w.contains ' '
  else core.all (fun c => c == ':' || c == '-' || c == ' ')

/-- Test of `/^\|?\s*[:\- ]+\s*\|/` on the (already trimmed) next line:
an optional leading pipe, then some `sepMiddle` word, then a pipe. -/
def sepMatch (s : String) : Bool :=
  let cs := s.data
  let body := if cs.head? == some '|' then cs.tail else cs
  (List.range body.length).any (fun k => body[k]? == some '|' && sepMiddle (body.take k))

/-- The substring after the last `-` of a string (whole string if no dash). -/
def afterLastDash (s : String) : String :=
  String.mk ((s.data.reverse.takeWhile (fun c => c != '-')).reverse)

/-- Split a character list at every newline (JS `split(/\r?\n/)`, newline part). -/
def splitLinesChars : List Char → List (List Char)
  | [] => [[]]
  | '\n' :: rest => [] :: splitLinesChars rest
  | c :: rest =>
    match splitLinesChars rest with
    | l :: ls => (c :: l) :: ls
    | [] => [[c]]

/-- Drop a single trailing carriage return (the `\r?` part of `split(/\r?\n/)`). -/
def stripCR (l : List Char) : List Char :=
  if l.getLast? = some '\r' then l.dropLast else l

/-- `content.split(/\r?\n/)`. -/
def splitLines (content : String) : List String :=
  (splitLinesChars content.data).map (fun l => String.mk (stripCR l))

/-! ### Data model (interfaces from src/main.ts) -/

/-- `interface GameItem` — one parsed fragment. -/
structure GameItem where
  id : String
  text : String
  originalHeading : String
  originalIndex : Nat
  indentation : Nat
  isListItem : Bool
  listMarker : Option String
  isStatic : Bool
  isSubHeading : Bool
  blockId : Option String
  flexGroupId : Option String
deriving DecidableEq, Inhabited

/-- `interface GameHeading` — a heading-scoped group of fragments. -/
structure GameHeading where
  title : String
  items : List GameItem
  isRestored : Bool
deriving DecidableEq, Inhabited

/-- `type Difficulty = 'easy' | 'medium' | 'hard'`. -/
inductive Difficulty where
  | easy
  | medium
  | hard
deriving DecidableEq

/-- One row of `DIFFICULTY_CONFIG`.  The source stores `prefillPercent` as an
IEEE-754 double.  The double that the literal 0.7 / 0.4 / 0.1 denotes is the
exact dyadic rational `prefillMantissa / 2 ^ prefillExp`:

* `0.7` ↦ `6305039478318694 / 2^53`  (0.7·2^53 = 6305039478318694.4, rounds down,
  so the stored double is slightly *below* 7/10);
* `0.4` ↦ `3602879701896397 / 2^53`  (0.4·2^54 = 7205759403792793.6 rounds up to
  7205759403792794 = 2·3602879701896397, slightly *above* 4/10);
* `0.1` ↦ `3602879701896397 / 2^55`  (same significand, slightly *above* 1/10).

Because the easy double sits below 7/10, the double product
`count * prefillPercent` can round to just below an exact multiple of ten times
7/10 (first at `count = 90`, where `90 * 0.7` evaluates to
62.99999999999999289…), so `Math.floor` there returns one less than the
rational floor `⌊count·7/10⌋`. -/
structure DifficultyConfig where
  prefillMantissa : Nat
  prefillExp : Nat
  intruders : Nat
  label : String
deriving DecidableEq

/-- `DIFFICULTY_CONFIG` from src/main.ts (`prefillPercent` as its exact dyadic
value, see `DifficultyConfig`). -/
def DIFFICULTY_CONFIG : Difficulty → DifficultyConfig
  | .easy => { prefillMantissa := 6305039478318694, prefillExp := 53, intruders := 1, label := "Easy" }
  | .medium => { prefillMantissa := 3602879701896397, prefillExp := 53, intruders := 3, label := "Medium" }
  | .hard => { prefillMantissa := 3602879701896397, prefillExp := 55, intruders := 6, label := "Hard" }

/-- The real number the source *literal* `0.7` / `0.4` / `0.1` denotes — the
fraction the spec speaks about.  The double the program actually stores and
multiplies with is `prefillMantissa / 2 ^ prefillExp`, which differs from this
rational by less than 2^-53. -/
def idealPrefillFraction : Difficulty → ℚ
  | .easy => 7 / 10
  | .medium => 4 / 10
  | .hard => 1 / 10

/-- `interface GameState`. -/
structure GameState where
  fileName : String
  filePath : String
  headings : List GameHeading
  activeHeadingIndex : Option Nat
  difficulty : Difficulty
  slots : List (Option GameItem)
  prefilledIndices : Finset Nat
  poolHeightPercent : Nat
  poolItems : List GameItem
deriving DecidableEq

/-! ### Parser (`MessUpPlugin.parseMarkdownToGame`) -/

/-- The fragment literal built inside `pushItem`:  `rndId c` is the
`Math.random().toString(36).substring(2, 7)` draw (the `c`-th draw of the
id stream). -/
def mkFragment (rndId : Nat → String) (c : Nat) (title : String) (pos : Nat)
    (text : String) (isStatic : Bool) (isSubHeading : Bool) (blockId : Option String) :
    GameItem :=
  { id := title ++ "-" ++ Nat.repr pos ++ "-" ++ rndId c
    text := text
    originalHeading := title
    originalIndex := pos
    indentation := indentWidth text
    isListItem := (listMarkerOf text).isSome
    listMarker := listMarkerOf text
    isStatic := isStatic
    isSubHeading := isSubHeading
    blockId := blockId
    flexGroupId := none }

/-- `pushItem(heading, text, isStatic, isSubHeading, blockId)`:  appends a
fragment whose `originalIndex` is the current item count. -/
def pushItem (rndId : Nat → String) (c : Nat) (h : GameHeading) (text : String)
    (isStatic : Bool) (isSubHeading : Bool) (blockId : Option String) : GameHeading :=
  { h with items := h.items ++ [mkFragment rndId c h.title h.items.length text isStatic isSubHeading blockId] }

/-- Push a run of (non-static) table/callout body rows, consuming one id draw each. -/
def pushRows (rndId : Nat → String) (bId : String) : List String → Nat → GameHeading → GameHeading
  | [], _, h => h
  | row :: more, c, h => pushRows rndId bId more (c + 1) (pushItem rndId c h row false false (some bId))

/-- Mutable state of the parsing loop: the line index `i`, the id-draw
counter `c`, the closed groups and the in-progress group. -/
structure PState where
  i : Nat
  c : Nat
  finished : List GameHeading
  cur : GameHeading
deriving DecidableEq

/-- One iteration of the parser's `while` loop: `line` is `lines[i]` and
`rest` the lines after it; the result is the remaining lines and the new
state.  Mirrors the branch order of the source: blank skip, heading,
table block, callout block, ordinary line. -/
def parseStep (rndId : Nat → String) (line : String) (rest : List String) (st : PState) :
    List String × PState :=
  let trimmed := jsTrim line
  if line = "" then
    (rest, { st with i := st.i + 1 })
  else
    match headingParse line with
    | some lt =>
      if lt.1 ≤ 2 then
        (rest,
          { st with
            i := st.i + 1
            finished := if st.cur.items.length > 0 then st.finished ++ [st.cur] else st.finished
            cur := { title := lt.2, items := [], isRestored := false } })
      else
        (rest,
          { st with
            i := st.i + 1
            c := st.c + 1
            cur := pushItem rndId st.c st.cur line false true none })
    | none =>
      if startsWithChars trimmed ['|'] && sepMatch (jsTrim (rest.head?.getD "")) then
        match rest with
        | [] =>
          -- never taken: `sepMatch` of the empty next line is false
          (rest,
            { st with
              i := st.i + 1
              c := st.c + 1
              cur := pushItem rndId st.c st.cur line false false none })
        | r1 :: rest2 =>
          let bId := "table-" ++ Nat.repr st.i
          let rows := rest2.takeWhile (fun l => startsWithChars (jsTrim l) ['|'])
          let h1 := pushItem rndId st.c st.cur line true false (some bId)
          let h2 := pushItem rndId (st.c + 1) h1 r1 true false (some bId)
          (rest2.dropWhile (fun l => startsWithChars (jsTrim l) ['|']),
            { st with
              i := st.i + 2 + rows.length
              c := st.c + 2 + rows.length
              cur := pushRows rndId bId rows (st.c + 2) h2 })
      else if startsWithChars trimmed ['>', ' ', '[', '!'] then
        let bId := "callout-" ++ Nat.repr st.i
        let rows := rest.takeWhile (fun l => startsWithChars (jsTrim l) ['>'])
        let h1 := pushItem rndId st.c st.cur line true false (some bId)
        (rest.dropWhile (fun l => startsWithChars (jsTrim l) ['>']),
          { st with
            i := st.i + 1 + rows.length
            c := st.c + 1 + rows.length
            cur := pushRows rndId bId rows (st.c + 1) h1 })
      else
        (rest,
          { st with
            i := st.i + 1
            c := st.c + 1
            cur := pushItem rndId st.c st.cur line false false none })

/-- The parsing loop, driven by fuel.  With fuel `≥` the number of remaining
lines the fuel never runs out, because each `parseStep` consumes at least
one line (`parseStep_shrinks`). -/
def parseRunF (rndId : Nat → String) : Nat → List String → PState → PState
  | _, [], st => st
  | 0, _ :: _, st => st
  | fuel + 1, line :: rest, st =>
    let out := parseStep rndId line rest st
    parseRunF rndId fuel out.1 out.2

/-! ### Flexible-group pass -/

/-- Loop state of the flexible-group pass (`parentStack` entries are
`(indent, index)` with the sentinel `(-1, -1)` at the bottom). -/
structure FlexState where
  parentStack : List (Int × Int)
  currentFlex : Option String
  lastParentIdx : Int
  lastIndent : Int
deriving DecidableEq

/-- Initial flexible-group state (sentinels from the source). -/
def flexInit : FlexState :=
  { parentStack := [(-1, -1)], currentFlex := none, lastParentIdx := -2, lastIndent := -1 }

/-- Pop stack entries whose indent is `≥` the current indentation, keeping
the bottom sentinel. -/
def popParents (indent : Int) : List (Int × Int) → List (Int × Int)
  | p :: q :: more => if p.1 ≥ indent then popParents indent (q :: more) else p :: q :: more
  | l => l

/-- The per-heading flexible-group loop.  `j` is the item index; `rndF j` is
the `Math.random().toString(36).substring(2, 5)` draw used if item `j` starts
a new flex group. -/
def flexGo (title : String) (rndF : Nat → String) : Nat → FlexState → List GameItem → List GameItem
  | _, _, [] => []
  | j, fs, item :: rest =>
    let stack1 := popParents (item.indentation : Int) fs.parentStack
    let parentIdx := (stack1.headD ((-1 : Int), (-1 : Int))).2
    let isUn := isUnorderedText item.text
    let hasCh :=
      match rest.head? with
      | some nxt => decide (item.indentation < nxt.indentation)
      | none => false
    let isStat := item.isStatic || item.isSubHeading
    let newFlex : Option String :=
      if !isUn || isStat || hasCh then none
      else if fs.currentFlex = none ∨ parentIdx ≠ fs.lastParentIdx ∨ (item.indentation : Int) ≠ fs.lastIndent then
        some ("flex-" ++ title ++ "-" ++ Nat.repr j ++ "-" ++ rndF j)
      else fs.currentFlex
    let item2 := if !isUn || isStat || hasCh then item else { item with flexGroupId := newFlex }
    let stack2 := if hasCh then ((item.indentation : Int), (j : Int)) :: stack1 else stack1
    item2 :: flexGo title rndF (j + 1)
      { parentStack := stack2, currentFlex := newFlex,
        lastParentIdx := parentIdx, lastIndent := (item.indentation : Int) } rest

/-- The `headings.forEach` flexible-group pass; the oracle is keyed by the
heading's position so that each heading has its own stream of draws. -/
def applyFlex (rndFlex : Nat → Nat → String) (hs : List GameHeading) : List GameHeading :=
  hs.enum.map (fun p => { p.2 with items := flexGo p.2.title (rndFlex p.1) 0 flexInit p.2.items })

/-- `MessUpPlugin.parseMarkdownToGame(content, fileName, filePath)`. -/
def parseMarkdownToGame (rndId : Nat → String) (rndFlex : Nat → Nat → String)
    (content fileName filePath : String) : GameState :=
  let lines := splitLines content
  let st0 : PState :=
    { i := 0, c := 0, finished := [],
      cur := { title := "Introduction", items := [], isRestored := false } }
  let stF := parseRunF rndId lines.length lines st0
  { fileName := fileName
    filePath := filePath
    headings := applyFlex rndFlex (stF.finished ++ [stF.cur])
    activeHeadingIndex := none
    difficulty := Difficulty.medium
    slots := []
    prefilledIndices := ∅
    poolHeightPercent := 30
    poolItems := [] }

/-! ### Correctness evaluator (`MessUpGameView`) -/

/-- JavaScript truthiness of an optional string (`undefined` and `""` are falsy). -/
def jsTruthyS : Option String → Bool
  | none => false
  | some s => !(s == "")

/-- `MessUpGameView.isSlotCorrect(itemInSlot, originalIndex, heading)`. -/
def isSlotCorrect (itemInSlot : Option GameItem) (originalIndex : Nat) (heading : GameHeading) : Bool :=
  match itemInSlot with
  | none => false
  | some item =>
    if item.originalIndex == originalIndex && item.originalHeading == heading.title then true
    else
      match heading.items[originalIndex]? with
      | none => false
      | some orig =>
        if jsTruthyS orig.flexGroupId && item.flexGroupId == orig.flexGroupId then true
        else false

/-- `state.slots.every((item, idx) => this.isSlotCorrect(item, idx, heading))`,
written with an explicit running index. -/
def winAux (heading : GameHeading) : Nat → List (Option GameItem) → Bool
  | _, [] => true
  | idx, s :: rest => isSlotCorrect s idx heading && winAux heading (idx + 1) rest

/-- The win condition of `checkWinCondition`. -/
def winCondition (heading : GameHeading) (slots : List (Option GameItem)) : Bool :=
  winAux heading 0 slots

/-- `MessUpGameView.checkWinCondition`: returns the (possibly restored)
heading and whether the delayed return-to-lobby timer was scheduled. -/
def checkWinCondition (heading : GameHeading) (slots : List (Option GameItem)) :
    GameHeading × Bool :=
  if winCondition heading slots then ({ heading with isRestored := true }, true)
  else (heading, false)

/-- `MessUpGameView.isBlockFullyRestored(blockId, heading, slots)`. -/
def isBlockFullyRestored (blockId : String) (heading : GameHeading)
    (slots : List (Option GameItem)) : Bool :=
  let blockIndices := (heading.items.enum.filter (fun p => p.2.blockId == some blockId)).map Prod.fst
  blockIndices.all (fun idx => isSlotCorrect ((slots[idx]?).getD none) idx heading)

/-! ### Session generator (`MessUpGameView.startSession`) -/

/-- Oracles for the random draws of one `startSession` call. -/
structure SessionOracles where
  jitter : Nat → ℚ
  pickH : Nat → Nat
  pickI : Nat → Nat
  shuffle : List GameItem → List GameItem

/-- `playableIndices` paired with their items: the non-static positions. -/
def playablePairs (items : List GameItem) : List (Nat × GameItem) :=
  items.enum.filter (fun p => !p.2.isStatic)

/-- The stability score of the `n`-th playable item:  `999` for sub-headings,
otherwise `100 / (indentation/4 + 1)` plus the random jitter in `[0, 20)`. -/
def stabilityScore (or : SessionOracles) (n : Nat) (item : GameItem) : ℚ :=
  if item.isSubHeading then 999
  else 100 / ((item.indentation : ℚ) / 4 + 1) + or.jitter n

/-- `weightedItems`: each playable index with its stability score. -/
def weightedItems (or : SessionOracles) (items : List GameItem) : List (Nat × ℚ) :=
  (playablePairs items).enum.map (fun q => (q.2.1, stabilityScore or q.1 q.2.2))

/-- `weightedItems.sort((a, b) => b.stabilityScore - a.stabilityScore)`:
sorted by descending score (the comparator is consistent, so the JS sort
produces a sorted permutation; we model it with insertion sort). -/
def sortedWeighted (or : SessionOracles) (items : List GameItem) : List (Nat × ℚ) :=
  (weightedItems or items).insertionSort (fun a b => b.2 ≤ a.2)

/-- Number of binary digits of `m`.  The first argument is fuel; taking the
number itself as fuel (`bitLen`) makes the recursion structural while the
computation still stops after `log2 m + 1` steps. -/
def bitLenGo : Nat → Nat → Nat
  | 0, _ => 0
  | f + 1, m => if m = 0 then 0 else bitLenGo f (m / 2) + 1

/-- Number of binary digits of `n` (0 for 0). -/
def bitLen (n : Nat) : Nat := bitLenGo n n

/-- Round a natural number to 53 significant bits, to nearest, ties to even:
the value of the IEEE double nearest to `N`.  `N` here is the exact product
`count * prefillMantissa`, which stays far below the double overflow range, and
both factors are exactly representable for every possible JS array length, so
this is exactly the double multiplication the source performs. -/
def roundBits53 (N : Nat) : Nat :=
  let b := bitLen N
  if b ≤ 53 then N
  else
    let shift := b - 53
    let q := N / 2 ^ shift
    let r := N % 2 ^ shift
    let half := 2 ^ (shift - 1)
    let q2 := if half < r ∨ (r = half ∧ q % 2 = 1) then q + 1 else q
    q2 * 2 ^ shift

/-- `Math.floor(playableIndices.length * config.prefillPercent)`, computed the
way the JS engine does: the exact product `count · prefillMantissa / 2^prefillExp`
is rounded to the nearest double (53-bit significand, ties to even) and the
result is floored.  This differs from the rational floor
`⌊count · idealPrefillFraction⌋` at some counts: on easy the double 0.7 is
below 7/10, so e.g. `count = 90` gives 62 where the rational floor is 63. -/
def numToPrefill (d : Difficulty) (playableCount : Nat) : Nat :=
  roundBits53 (playableCount * (DIFFICULTY_CONFIG d).prefillMantissa) /
    2 ^ (DIFFICULTY_CONFIG d).prefillExp

/-- `prefilledSet`: the indices of the top `numToPrefill` entries. -/
def prefilledSetOf (or : SessionOracles) (d : Difficulty) (items : List GameItem) : Finset Nat :=
  (((sortedWeighted or items).take (numToPrefill d (playablePairs items).length)).map Prod.fst).toFinset

/-- The `heading.items.forEach` slot-filling loop: statics and prefilled
positions are placed into their own slots. -/
def fillSlots (pre : Finset Nat) : List GameItem → Nat → List (Option GameItem) → List (Option GameItem)
  | [], _, slots => slots
  | item :: rest, idx, slots =>
    fillSlots pre rest (idx + 1)
      (if item.isStatic = true ∨ idx ∈ pre then slots.set idx (some item) else slots)

/-- `this.state.headings.filter((_, i) => i !== index)`. -/
def otherHeadings (headings : List GameHeading) (index : Nat) : List GameHeading :=
  (headings.enum.filter (fun p => p.1 != index)).map Prod.snd

/-- The intruder-selection loop: `k` iterations remain and `n` is the current
iteration number; a random other heading, then a random item of it; static
picks contribute nothing. -/
def collectIntruders (others : List GameHeading) (pickH pickI : Nat → Nat) :
    Nat → Nat → List GameItem
  | _, 0 => []
  | n, k + 1 =>
    let rest := collectIntruders others pickH pickI (n + 1) k
    if ho : 0 < others.length then
      let randomH := others.get ⟨pickH n % others.length, Nat.mod_lt _ ho⟩
      if hi : 0 < randomH.items.length then
        let randomI := randomH.items.get ⟨pickI n % randomH.items.length, Nat.mod_lt _ hi⟩
        if randomI.isStatic then rest else randomI :: rest
      else rest
    else rest

/-- The decoys a `startSession(index)` call adds to the pool. -/
def sessionIntruders (st : GameState) (index : Nat) (or : SessionOracles) : List GameItem :=
  let others := otherHeadings st.headings index
  if 0 < others.length then
    collectIntruders others or.pickH or.pickI 0 (DIFFICULTY_CONFIG st.difficulty).intruders
  else []

/-- `MessUpGameView.startSession(index)`. -/
def startSession (st : GameState) (index : Nat) (or : SessionOracles) : GameState :=
  match st.headings[index]? with
  | none => st    -- the lobby only invokes startSession with a valid index
  | some heading =>
    let pre := prefilledSetOf or st.difficulty heading.items
    let slots := fillSlots pre heading.items 0 (List.replicate heading.items.length none)
    let itemsInSlots := (slots.filterMap (fun s => s)).map (fun it => it.id)
    let pool := or.shuffle
      ((heading.items.filter (fun it => !it.isStatic && !(itemsInSlots.contains it.id)))
        ++ sessionIntruders st index or)
    { st with activeHeadingIndex := some index,
              prefilledIndices := pre, slots := slots, poolItems := pool }

/-! ### Player actions and the delayed win transition -/

/-- The Back button of the repair session: `state.activeHeadingIndex = null`. -/
def backToLobby (st : GameState) : GameState :=
  { st with activeHeadingIndex := none }

/-- The body of the `setTimeout` closure scheduled by `checkWinCondition`:
it unconditionally sets `state.activeHeadingIndex = null` when it fires. -/
def winTimerProc (st : GameState) : GameState :=
  { st with activeHeadingIndex := none }

/-- The drop-zone click handler: place the selected pill into slot `idx`,
then run `checkWinCondition` on the active heading.  The boolean records
whether the win timer was scheduled by this action. -/
def placeSelected (st : GameState) (idx : Nat) (pill : GameItem) : GameState × Bool :=
  match st.activeHeadingIndex with
  | none => (st, false)
  | some ai =>
    match st.headings[ai]? with
    | none => (st, false)
    | some heading =>
      let slots := st.slots.set idx (some pill)
      let res := checkWinCondition heading slots
      if res.2 then
        ({ st with slots := slots, headings := st.headings.set ai res.1 }, true)
      else ({ st with slots := slots }, false)

/-! ### Helper lemmas: the correctness evaluator -/

/-- An empty slot is never correct. -/
lemma isSlotCorrect_none (i : Nat) (heading : GameHeading) :
    isSlotCorrect none i heading = false := rfl

/-- Truthiness of an optional string, as a proposition. -/
lemma jsTruthyS_eq_true_iff (o : Option String) :
    jsTruthyS o = true ↔ ∃ s, o = some s ∧ s ≠ "" := by
  cases o <;> simp [jsTruthyS]

/-- Boolean normal form of `isSlotCorrect` on a filled slot. -/
lemma isSlotCorrect_some (heading : GameHeading) (i : Nat) (item : GameItem) :
    isSlotCorrect (some item) i heading =
      ((item.originalIndex == i && item.originalHeading == heading.title) ||
        ((heading.items[i]?.map
          (fun orig => jsTruthyS orig.flexGroupId && item.flexGroupId == orig.flexGroupId)).getD false)) := by
  simp only [isSlotCorrect]
  rcases heading.items[i]? with _ | orig
  · cases h : (item.originalIndex == i && item.originalHeading == heading.title) <;> simp [h]
  · cases h : (item.originalIndex == i && item.originalHeading == heading.title) <;>
      cases h2 : (jsTruthyS orig.flexGroupId && item.flexGroupId == orig.flexGroupId) <;>
        simp [h, h2]

/-- Full characterization of `isSlotCorrect` on a filled slot: exact original
position, or a (truthy) flex-group match with the fragment originally at the
slot. -/
lemma isSlotCorrect_some_iff (heading : GameHeading) (i : Nat) (item : GameItem) :
    isSlotCorrect (some item) i heading = true ↔
      ((item.originalIndex = i ∧ item.originalHeading = heading.title) ∨
       (∃ orig fid, heading.items[i]? = some orig ∧ orig.flexGroupId = some fid ∧
         fid ≠ "" ∧ item.flexGroupId = some fid)) := by
  rw [isSlotCorrect_some]
  rcases hcase : heading.items[i]? with _ | orig
  · simp only [Option.map_none', Option.getD_none, Bool.or_false, Bool.and_eq_true, beq_iff_eq]
    constructor
    · exact Or.inl
    · rintro (h | ⟨orig, fid, h, _⟩)
      · exact h
      · cases h
  · simp only [Option.map_some', Option.getD_some, Bool.or_eq_true, Bool.and_eq_true, beq_iff_eq,
      jsTruthyS_eq_true_iff]
    constructor
    · rintro (h | ⟨⟨fid, hf, hne⟩, heq⟩)
      · exact Or.inl h
      · exact Or.inr ⟨orig, fid, rfl, hf, hne, by rw [heq, hf]⟩
    · rintro (h | ⟨orig', fid, horig, hf, hne, hitem⟩)
      · exact Or.inl h
      · obtain rfl : orig' = orig := by
          injection horig with h
          exact h.symm
        exact Or.inr ⟨⟨fid, hf, hne⟩, by rw [hitem, hf]⟩

/-- `Array.every` with index, as a universally quantified statement. -/
lemma winAux_eq_true_iff (heading : GameHeading) :
    ∀ (slots : List (Option GameItem)) (n : Nat),
      winAux heading n slots = true ↔
        ∀ k (hk : k < slots.length), isSlotCorrect (slots.get ⟨k, hk⟩) (n + k) heading = true := by
  intro slots
  induction slots with
  | nil => intro n; simp [winAux]
  | cons s rest ih =>
    intro n
    simp only [winAux, Bool.and_eq_true, ih (n + 1)]
    constructor
    · rintro ⟨h0, hrest⟩ k hk
      cases k with
      | zero => simpa using h0
      | succ k' =>
        have := hrest k' (by simpa using Nat.lt_of_succ_lt_succ hk)
        simpa [Nat.add_assoc, Nat.add_comm 1 k'] using this
    · intro h
      refine ⟨by simpa using h 0 (Nat.succ_pos _), fun k hk => ?_⟩
      have := h (k + 1) (by simpa using Nat.succ_lt_succ hk)
      simpa [Nat.add_assoc, Nat.add_comm 1 k] using this

/-- The win condition over slot indices. -/
lemma winCondition_eq_true_iff (heading : GameHeading) (slots : List (Option GameItem)) :
    winCondition heading slots = true ↔
      ∀ k (hk : k < slots.length), isSlotCorrect (slots.get ⟨k, hk⟩) k heading = true := by
  unfold winCondition
  rw [winAux_eq_true_iff]
  simp

/-- Concrete data for witnesses: a one-fragment group in its solved state. -/
def wItem : GameItem :=
  { id := "W-0-aaaaa", text := "w", originalHeading := "W", originalIndex := 0,
    indentation := 0, isListItem := false, listMarker := none, isStatic := false,
    isSubHeading := false, blockId := none, flexGroupId := none }

/-- The group holding `wItem`. -/
def wHeading : GameHeading := { title := "W", items := [wItem], isRestored := false }

/-- C1: `SlotCorrect(s, i, group)` is false on an empty slot; true on the exact
original position (`originalIndex = i` and `originalGroup = group.title`);
otherwise true exactly when the fragment originally at `i` carries a
`flexGroupId` equal to the slot fragment's; false in all remaining cases.
(The hypothesis excludes the unreachable empty-string flex id, which
JavaScript truthiness would treat as absent; parsed ids always start with
"flex-", see `parsed_flexGroupId_ne_empty`.) -/
theorem isSlotCorrect_spec (heading : GameHeading) (i : Nat) (orig : GameItem)
    (horig : heading.items[i]? = some orig) (hflex : orig.flexGroupId ≠ some "") :
    isSlotCorrect none i heading = false ∧
    ∀ item : GameItem,
      (isSlotCorrect (some item) i heading = true ↔
        ((item.originalIndex = i ∧ item.originalHeading = heading.title) ∨
         (∃ fid, orig.flexGroupId = some fid ∧ item.flexGroupId = some fid))) := by
  refine ⟨rfl, fun item => ?_⟩
  rw [isSlotCorrect_some_iff]
  constructor
  · rintro (h | ⟨orig', fid, horig', hf, hne, hitem⟩)
    · exact Or.inl h
    · obtain rfl : orig' = orig := by
        rw [horig] at horig'; injection horig' with h; exact h.symm
      exact Or.inr ⟨fid, hf, hitem⟩
  · rintro (h | ⟨fid, hf, hitem⟩)
    · exact Or.inl h
    · have hne : fid ≠ "" := by
        intro he; exact hflex (he ▸ hf)
      exact Or.inr ⟨orig, fid, horig, hf, hne, hitem⟩

/-- Witness for C1: the exact original fragment in its own slot is correct. -/
theorem isSlotCorrect_spec_witness : isSlotCorrect (some wItem) 0 wHeading = true :=
  ((isSlotCorrect_spec wHeading 0 wItem (by decide) (by decide)).2 wItem).mpr
    (Or.inl ⟨rfl, rfl⟩)

/-- C2: the win condition holds iff every slot index satisfies `SlotCorrect`
(equivalently: each filled slot is the exact original fragment for its index
or flex-matches the original fragment there), and a win sets the group's
`isRestored` flag. -/
theorem checkWinCondition_spec (heading : GameHeading) (slots : List (Option GameItem)) :
    (winCondition heading slots = true ↔
      ∀ k (hk : k < slots.length), isSlotCorrect (slots.get ⟨k, hk⟩) k heading = true) ∧
    (winCondition heading slots = true → (checkWinCondition heading slots).1.isRestored = true) ∧
    ((∀ it ∈ heading.items, it.flexGroupId ≠ some "") →
      (winCondition heading slots = true ↔
        ∀ k (hk : k < slots.length), ∃ item, slots.get ⟨k, hk⟩ = some item ∧
          ((item.originalIndex = k ∧ item.originalHeading = heading.title) ∨
           (∃ orig fid, heading.items[k]? = some orig ∧ orig.flexGroupId = some fid ∧
             item.flexGroupId = some fid)))) := by
  refine ⟨winCondition_eq_true_iff heading slots, ?_, ?_⟩
  · intro hwin
    simp [checkWinCondition, hwin]
  · intro hflexall
    rw [winCondition_eq_true_iff]
    constructor
    · intro h k hk
      have hk' := h k hk
      rcases hs : slots.get ⟨k, hk⟩ with _ | item
      · rw [hs] at hk'; cases hk'
      · rw [hs, isSlotCorrect_some_iff] at hk'
        refine ⟨item, rfl, ?_⟩
        rcases hk' with hex | ⟨orig, fid, horig, hf, _, hitem⟩
        · exact Or.inl hex
        · exact Or.inr ⟨orig, fid, horig, hf, hitem⟩
    · intro h k hk
      obtain ⟨item, hs, hcases⟩ := h k hk
      rw [hs, isSlotCorrect_some_iff]
      rcases hcases with hex | ⟨orig, fid, horig, hf, hitem⟩
      · exact Or.inl hex
      · have hne : fid ≠ "" := by
          intro he
          have horigmem : orig ∈ heading.items := by
            exact List.getElem?_mem horig
          exact hflexall orig horigmem (he ▸ hf)
        exact Or.inr ⟨orig, fid, horig, hf, hne, hitem⟩

/-- Witness for C2: the solved one-fragment session wins and is marked restored. -/
theorem checkWinCondition_spec_witness :
    (checkWinCondition wHeading [some wItem]).1.isRestored = true :=
  (checkWinCondition_spec wHeading [some wItem]).2.1 (by decide)

/-! ### Helper lemmas: the session generator -/

/-- Mapping commutes with filtering on the mapped value. -/
lemma map_filter_comp {α β : Type} (f : α → β) (p : β → Bool) :
    ∀ l : List α, (l.filter (fun a => p (f a))).map f = (l.map f).filter p := by
  intro l
  induction l with
  | nil => rfl
  | cons a t ih => by_cases h : p (f a) <;> simp [List.filter_cons, h, ih]

/-- The playable pairs are exactly the non-static items with their indices. -/
lemma playablePairs_length (items : List GameItem) :
    (playablePairs items).length = (items.filter (fun it => !it.isStatic)).length := by
  unfold playablePairs
  have h := map_filter_comp (Prod.snd : Nat × GameItem → GameItem)
    (fun it => !it.isStatic) items.enum
  have hlen : ((items.enum.filter (fun p => !p.2.isStatic)).map Prod.snd).length
      = (items.enum.filter (fun p => !p.2.isStatic)).length := List.length_map _ _
  rw [← hlen, h, List.enum_map_snd]

/-- A playable pair is a position of `items` holding its item. -/
lemma playablePairs_mem {items : List GameItem} {p : Nat × GameItem}
    (h : p ∈ playablePairs items) : items[p.1]? = some p.2 ∧ p.2.isStatic = false := by
  unfold playablePairs at h
  have hmem := List.mem_of_mem_filter h
  have hp := List.of_mem_filter h
  refine ⟨List.mem_enum_iff_getElem?.mp hmem, ?_⟩
  simpa using hp

/-- Index components of the weighted list: the playable indices. -/
lemma weightedItems_map_fst (or : SessionOracles) (items : List GameItem) :
    (weightedItems or items).map Prod.fst = (playablePairs items).map Prod.fst := by
  unfold weightedItems
  rw [List.map_map]
  have h : (Prod.fst ∘ fun q : Nat × (Nat × GameItem) => (q.2.1, stabilityScore or q.1 q.2.2))
      = (Prod.fst ∘ Prod.snd) := rfl
  rw [h, ← List.map_map, List.enum_map_snd]

/-- The playable indices are pairwise distinct. -/
lemma playablePairs_map_fst_nodup (items : List GameItem) :
    ((playablePairs items).map Prod.fst).Nodup := by
  unfold playablePairs
  have hsub : (items.enum.filter (fun p => !p.2.isStatic)).Sublist items.enum :=
    List.filter_sublist _
  have hsub2 : ((items.enum.filter (fun p => !p.2.isStatic)).map Prod.fst).Sublist
      (items.enum.map Prod.fst) := hsub.map Prod.fst
  rw [List.enum_map_fst] at hsub2
  exact hsub2.nodup (List.nodup_range _)

/-- The sorted weighted list is a permutation of the weighted list. -/
lemma sortedWeighted_perm (or : SessionOracles) (items : List GameItem) :
    (sortedWeighted or items).Perm (weightedItems or items) :=
  List.perm_insertionSort _ _

/-- Indices of the sorted weighted list are pairwise distinct. -/
lemma sortedWeighted_map_fst_nodup (or : SessionOracles) (items : List GameItem) :
    ((sortedWeighted or items).map Prod.fst).Nodup := by
  have hperm := (sortedWeighted_perm or items).map Prod.fst
  rw [hperm.nodup_iff, weightedItems_map_fst]
  exact playablePairs_map_fst_nodup items

/-- Membership in the prefilled set implies membership among the playable indices. -/
lemma mem_prefilledSetOf {or : SessionOracles} {d : Difficulty} {items : List GameItem} {j : Nat}
    (h : j ∈ prefilledSetOf or d items) : j ∈ (playablePairs items).map Prod.fst := by
  unfold prefilledSetOf at h
  rw [List.mem_toFinset] at h
  have htake : ((sortedWeighted or items).take (numToPrefill d (playablePairs items).length)).map
      Prod.fst = ((sortedWeighted or items).map Prod.fst).take (numToPrefill d (playablePairs items).length) := by
    rw [List.map_take]
  rw [htake] at h
  have h2 : j ∈ (sortedWeighted or items).map Prod.fst := List.mem_of_mem_take h
  have hperm := (sortedWeighted_perm or items).map Prod.fst
  rw [hperm.mem_iff, weightedItems_map_fst] at h2
  exact h2

/-- A prefilled index is within the group. -/
lemma mem_prefilledSetOf_lt {or : SessionOracles} {d : Difficulty} {items : List GameItem} {j : Nat}
    (h : j ∈ prefilledSetOf or d items) : j < items.length := by
  obtain ⟨p, hp, rfl⟩ := List.mem_map.mp (mem_prefilledSetOf h)
  have := (playablePairs_mem hp).1
  exact (List.getElem?_eq_some.mp this).1

/-- A prefilled index denotes a non-static item. -/
lemma mem_prefilledSetOf_not_static {or : SessionOracles} {d : Difficulty} {items : List GameItem}
    {j : Nat} {it : GameItem} (h : j ∈ prefilledSetOf or d items)
    (hit : items[j]? = some it) : it.isStatic = false := by
  obtain ⟨p, hp, rfl⟩ := List.mem_map.mp (mem_prefilledSetOf h)
  obtain ⟨hgt, hstat⟩ := playablePairs_mem hp
  rw [hgt] at hit
  injection hit with hit
  rw [← hit]
  exact hstat

/-- `bitLenGo` with sufficient fuel brackets its argument between consecutive
powers of two. -/
lemma bitLenGo_bounds :
    ∀ (fuel m : Nat), m ≤ fuel →
      m < 2 ^ bitLenGo fuel m ∧ (1 ≤ m → 2 ^ (bitLenGo fuel m - 1) ≤ m) := by
  intro fuel
  induction fuel with
  | zero =>
    intro m hm
    have hm0 : m = 0 := by omega
    subst hm0
    exact ⟨by positivity, by omega⟩
  | succ f ih =>
    intro m hm
    by_cases h0 : m = 0
    · subst h0
      exact ⟨by positivity, by omega⟩
    · have hstep : bitLenGo (f + 1) m = bitLenGo f (m / 2) + 1 := by
        simp [bitLenGo, h0]
      have hdiv : m / 2 ≤ f := by omega
      obtain ⟨hub, hlb⟩ := ih (m / 2) hdiv
      rw [hstep]
      constructor
      · have hlt : m < 2 * 2 ^ bitLenGo f (m / 2) := by omega
        calc m < 2 * 2 ^ bitLenGo f (m / 2) := hlt
          _ = 2 ^ (bitLenGo f (m / 2) + 1) := by rw [pow_succ]; ring
      · intro _
        by_cases h1 : m / 2 = 0
        · have hm1 : m = 1 := by omega
          subst hm1
          have hz : bitLenGo f (1 / 2) = 0 := by
            cases f <;> rfl
          simp [hz]
        · have hlb2 := hlb (by omega)
          have hL : 1 ≤ bitLenGo f (m / 2) := by
            by_contra hc
            have hL0 : bitLenGo f (m / 2) = 0 := by omega
            rw [hL0, pow_zero] at hub
            omega
          have hsplit : 2 ^ (bitLenGo f (m / 2) + 1 - 1)
              = 2 * 2 ^ (bitLenGo f (m / 2) - 1) := by
            rw [show bitLenGo f (m / 2) + 1 - 1 = (bitLenGo f (m / 2) - 1) + 1 by omega]
            rw [pow_succ]
            ring
          rw [hsplit]
          omega

/-- `bitLen` upper bound: every number is below `2 ^ bitLen`. -/
lemma bitLen_ub (n : Nat) : n < 2 ^ bitLen n :=
  (bitLenGo_bounds n n (Nat.le_refl n)).1

/-- `bitLen` lower bound: a positive number reaches `2 ^ (bitLen - 1)`. -/
lemma bitLen_lb {n : Nat} (h : 1 ≤ n) : 2 ^ (bitLen n - 1) ≤ n :=
  (bitLenGo_bounds n n (Nat.le_refl n)).2 h

/-- Rounding to 53 bits moves a number up by at most one unit in the last
place kept. -/
lemma roundBits53_le (N : Nat) : roundBits53 N ≤ N + 2 ^ (bitLen N - 53) := by
  simp only [roundBits53]
  split
  · exact Nat.le_add_right N _
  · have hdm : N / 2 ^ (bitLen N - 53) * 2 ^ (bitLen N - 53) ≤ N :=
      Nat.div_mul_le_self _ _
    split
    · rw [Nat.succ_mul]
      omega
    · omega

/-- `numToPrefill` never exceeds the playable count: each prefill double is
small enough that the rounded product stays below `pc · 2^prefillExp`. -/
lemma numToPrefill_le (d : Difficulty) (pc : Nat) : numToPrefill d pc ≤ pc := by
  have hconf : (DIFFICULTY_CONFIG d).prefillMantissa * (2 ^ 52 + 1) ≤
      2 ^ ((DIFFICULTY_CONFIG d).prefillExp + 52) := by
    cases d <;> decide
  set m := (DIFFICULTY_CONFIG d).prefillMantissa with hm
  set e := (DIFFICULTY_CONFIG d).prefillExp with he
  set N := pc * m with hN
  have hmain : roundBits53 N ≤ pc * 2 ^ e := by
    have hm_le : m ≤ 2 ^ e := by
      have h52 : 0 < 2 ^ 52 := by positivity
      have hmul : m * 2 ^ 52 ≤ 2 ^ e * 2 ^ 52 := by
        calc m * 2 ^ 52 ≤ m * (2 ^ 52 + 1) := Nat.mul_le_mul_left m (by omega)
          _ ≤ 2 ^ (e + 52) := hconf
          _ = 2 ^ e * 2 ^ 52 := pow_add 2 e 52
      exact Nat.le_of_mul_le_mul_right hmul h52
    by_cases hb : bitLen N ≤ 53
    · have hexact : roundBits53 N = N := by
        simp only [roundBits53]
        rw [if_pos hb]
      rw [hexact, hN]
      exact Nat.mul_le_mul_left pc hm_le
    · have hN1 : 1 ≤ N := by
        by_contra hc
        have h0 : N = 0 := by omega
        rw [h0] at hb
        exact hb (by decide)
      have hub := roundBits53_le N
      have hlb := bitLen_lb hN1
      have hshift : 2 ^ (bitLen N - 53) * 2 ^ 52 ≤ N := by
        rw [← pow_add]
        rw [show bitLen N - 53 + 52 = bitLen N - 1 by omega]
        exact hlb
      have h1 : roundBits53 N * 2 ^ 52 ≤ pc * 2 ^ e * 2 ^ 52 := by
        calc roundBits53 N * 2 ^ 52
            ≤ (N + 2 ^ (bitLen N - 53)) * 2 ^ 52 := Nat.mul_le_mul_right _ hub
          _ = N * 2 ^ 52 + 2 ^ (bitLen N - 53) * 2 ^ 52 := Nat.add_mul _ _ _
          _ ≤ N * 2 ^ 52 + N := by omega
          _ = N * (2 ^ 52 + 1) := by ring
          _ = pc * (m * (2 ^ 52 + 1)) := by rw [hN]; ring
          _ ≤ pc * 2 ^ (e + 52) := Nat.mul_le_mul_left pc hconf
          _ = pc * 2 ^ e * 2 ^ 52 := by rw [pow_add]; ring
      exact Nat.le_of_mul_le_mul_right h1 (by positivity)
  unfold numToPrefill
  rw [← hm, ← he, ← hN]
  calc roundBits53 N / 2 ^ e ≤ pc * 2 ^ e / 2 ^ e := Nat.div_le_div_right hmain
    _ = pc := Nat.mul_div_cancel pc (by positivity)

/-- The prefilled set has exactly `numToPrefill` elements. -/
lemma card_prefilledSetOf (or : SessionOracles) (d : Difficulty) (items : List GameItem) :
    (prefilledSetOf or d items).card = numToPrefill d (playablePairs items).length := by
  unfold prefilledSetOf
  set k := numToPrefill d (playablePairs items).length with hk
  have hnodup : (((sortedWeighted or items).take k).map Prod.fst).Nodup := by
    rw [List.map_take]
    exact (List.take_sublist _ _).nodup (sortedWeighted_map_fst_nodup or items)
  rw [List.toFinset_card_of_nodup hnodup, List.length_map, List.length_take]
  have hlen : (sortedWeighted or items).length = (playablePairs items).length := by
    have h1 := (sortedWeighted_perm or items).length_eq
    have h2 : (weightedItems or items).length = (playablePairs items).length := by
      unfold weightedItems
      rw [List.length_map, List.enum_length]
    omega
  rw [hlen]
  exact Nat.min_eq_left (numToPrefill_le d _)

/-- Contents of the filled slot array, below the running index: untouched. -/
lemma fillSlots_getElem?_lt (pre : Finset Nat) :
    ∀ (items : List GameItem) (idx0 : Nat) (slots : List (Option GameItem)) (i : Nat),
      i < idx0 → (fillSlots pre items idx0 slots)[i]? = slots[i]? := by
  intro items
  induction items with
  | nil => intro idx0 slots i _; rfl
  | cons item rest ih =>
    intro idx0 slots i hi
    show (fillSlots pre rest (idx0 + 1) _)[i]? = _
    rw [ih (idx0 + 1) _ i (Nat.lt_succ_of_lt hi)]
    split
    · exact List.getElem?_set_ne (by omega)
    · rfl

/-- Contents of the filled slot array at position `idx0 + j`:  statics and
prefilled positions hold their own item, the rest keeps the input value. -/
lemma fillSlots_getElem?_add (pre : Finset Nat) :
    ∀ (items : List GameItem) (idx0 : Nat) (slots : List (Option GameItem)),
      idx0 + items.length ≤ slots.length →
      ∀ j it, items[j]? = some it →
        (fillSlots pre items idx0 slots)[idx0 + j]? =
          if it.isStatic = true ∨ (idx0 + j) ∈ pre then some (some it) else slots[idx0 + j]? := by
  intro items
  induction items with
  | nil => intro idx0 slots _ j it hj; cases hj
  | cons item rest ih =>
    intro idx0 slots hlen j it hj
    have hidx : idx0 < slots.length := by simp at hlen; omega
    show (fillSlots pre rest (idx0 + 1)
      (if item.isStatic = true ∨ idx0 ∈ pre then slots.set idx0 (some item) else slots))[idx0 + j]? = _
    set slots2 := if item.isStatic = true ∨ idx0 ∈ pre then slots.set idx0 (some item) else slots
      with hdef
    have hlen2 : slots2.length = slots.length := by
      rw [hdef]; split
      · exact List.length_set slots idx0 _
      · rfl
    have hother : ∀ n, n ≠ idx0 → slots2[n]? = slots[n]? := by
      intro n hn
      rw [hdef]; split
      · exact List.getElem?_set_ne (by omega)
      · rfl
    cases j with
    | zero =>
      simp only [List.getElem?_cons_zero] at hj
      injection hj with hj
      subst hj
      rw [fillSlots_getElem?_lt pre rest (idx0 + 1) _ (idx0 + 0) (by omega)]
      have h0 : idx0 + 0 = idx0 := by omega
      rw [h0]
      by_cases hcond : item.isStatic = true ∨ idx0 ∈ pre
      · rw [if_pos hcond, hdef, if_pos hcond, List.getElem?_set_self hidx]
      · rw [if_neg hcond, hdef, if_neg hcond]
    | succ jp =>
      simp only [List.getElem?_cons_succ] at hj
      have harr : idx0 + (jp + 1) = (idx0 + 1) + jp := by omega
      rw [harr, ih (idx0 + 1) slots2 (by rw [hlen2]; simp at hlen; omega) jp it hj]
      rw [hother (idx0 + 1 + jp) (by omega)]

/-- The filled slot array has the same length as its input. -/
lemma fillSlots_length (pre : Finset Nat) :
    ∀ (items : List GameItem) (idx0 : Nat) (slots : List (Option GameItem)),
      (fillSlots pre items idx0 slots).length = slots.length := by
  intro items
  induction items with
  | nil => intro idx0 slots; rfl
  | cons item rest ih =>
    intro idx0 slots
    show (fillSlots pre rest (idx0 + 1) _).length = _
    rw [ih]
    split
    · exact List.length_set slots idx0 _
    · rfl

/-- C4 (amended): immediately after `startSession`, the slot array has one
slot per fragment; every static fragment and every prefilled position holds
its own original fragment; all other slots are empty; and the prefilled set
has exactly `numToPrefill` members — `Math.floor(playableCount ·
prefillPercent)` computed in IEEE double arithmetic, where the playable count
is the number of non-static fragments.  This double floor is NOT the rational
floor `⌊playableCount × 0.7 / 0.4 / 0.1⌋` the claim states: on easy the
stored double is below 7/10 and the product rounds below the exact integer at
playable counts 90, 170, 180, 330, … (see
`startSession_prefill_counterexample`). -/
theorem startSession_spec (st : GameState) (index : Nat) (or : SessionOracles)
    (heading : GameHeading) (horig : st.headings[index]? = some heading) :
    (startSession st index or).slots.length = heading.items.length ∧
    (∀ j ∈ (startSession st index or).prefilledIndices, j < heading.items.length) ∧
    (∀ (j : Nat) (it : GameItem), heading.items[j]? = some it → it.isStatic = true →
      (startSession st index or).slots[j]? = some (some it)) ∧
    (∀ (j : Nat) (it : GameItem), heading.items[j]? = some it →
      j ∈ (startSession st index or).prefilledIndices →
      (startSession st index or).slots[j]? = some (some it)) ∧
    (∀ (j : Nat) (it : GameItem), heading.items[j]? = some it → it.isStatic = false →
      j ∉ (startSession st index or).prefilledIndices →
      (startSession st index or).slots[j]? = some none) ∧
    (startSession st index or).prefilledIndices.card =
      numToPrefill st.difficulty
        (heading.items.filter (fun it => !it.isStatic)).length := by
  have hslots : (startSession st index or).slots =
      fillSlots (prefilledSetOf or st.difficulty heading.items) heading.items 0
        (List.replicate heading.items.length none) := by
    simp only [startSession, horig]
  have hpre : (startSession st index or).prefilledIndices =
      prefilledSetOf or st.difficulty heading.items := by
    simp only [startSession, horig]
  have hfill := fillSlots_getElem?_add (prefilledSetOf or st.difficulty heading.items)
    heading.items 0 (List.replicate heading.items.length none)
    (by rw [List.length_replicate]; omega)
  refine ⟨?_, ?_, ?_, ?_, ?_, ?_⟩
  · rw [hslots, fillSlots_length, List.length_replicate]
  · intro j hj
    rw [hpre] at hj
    exact mem_prefilledSetOf_lt hj
  · intro j it hjit hstat
    rw [hslots]
    have h := hfill j it hjit
    rw [Nat.zero_add] at h
    rw [h, if_pos (Or.inl hstat)]
  · intro j it hjit hjpre
    rw [hpre] at hjpre
    rw [hslots]
    have h := hfill j it hjit
    rw [Nat.zero_add] at h
    rw [h, if_pos (Or.inr hjpre)]
  · intro j it hjit hstat hjpre
    rw [hpre] at hjpre
    rw [hslots]
    have h := hfill j it hjit
    rw [Nat.zero_add] at h
    rw [h, if_neg (by rw [hstat]; simpa using hjpre)]
    have hjlt : j < heading.items.length := (List.getElem?_eq_some.mp hjit).1
    simp [List.getElem?_replicate, hjlt]
  · rw [hpre, card_prefilledSetOf, playablePairs_length]

/-- Concrete state for session witnesses. -/
def wState : GameState :=
  { fileName := "f", filePath := "p", headings := [wHeading], activeHeadingIndex := none,
    difficulty := Difficulty.medium, slots := [], prefilledIndices := ∅,
    poolHeightPercent := 30, poolItems := [] }

/-- Concrete session oracles for witnesses. -/
def wOracles : SessionOracles :=
  { jitter := fun _ => 0, pickH := fun _ => 0, pickI := fun _ => 0, shuffle := fun l => l }

/-- Witness for C4: the generated session for the one-fragment group has one slot. -/
theorem startSession_spec_witness :
    (startSession wState 0 wOracles).slots.length = wHeading.items.length :=
  (startSession_spec wState 0 wOracles wHeading (by decide)).1

/-- A sub-heading fragment (a `### s` line) at position `k` of the
counterexample group: non-static, hence playable. -/
def cex90Item (k : Nat) : GameItem :=
  { id := "A-" ++ Nat.repr k ++ "-r"
    text := "### s"
    originalHeading := "A"
    originalIndex := k
    indentation := 0
    isListItem := false
    listMarker := none
    isStatic := false
    isSubHeading := true
    blockId := none
    flexGroupId := none }

/-- A group with 90 playable fragments (what `# A` followed by ninety `### s`
lines parses to, up to the random id draws). -/
def cex90Heading : GameHeading :=
  { title := "A"
    items := (List.range 90).map cex90Item
    isRestored := false }

/-- A lobby state on easy difficulty holding the 90-fragment group. -/
def cex90State : GameState :=
  { fileName := "f"
    filePath := "p"
    headings := [cex90Heading]
    activeHeadingIndex := none
    difficulty := Difficulty.easy
    slots := []
    prefilledIndices := ∅
    poolHeightPercent := 30
    poolItems := [] }

/-- Counterexample for C4 as stated: with 90 playable fragments on easy the
session prefills `Math.floor(90 * 0.7) = 62` positions — the double product
`90 * 0.7` evaluates to 62.99999999999999289… because the double 0.7 lies
below 7/10 — not the `⌊90 × 7/10⌋₊ = 63` positions the claim's rational
floor demands. -/
theorem startSession_prefill_counterexample :
    (startSession cex90State 0 wOracles).prefilledIndices.card ≠
      ⌊((cex90Heading.items.filter (fun it => !it.isStatic)).length : ℚ) *
        idealPrefillFraction Difficulty.easy⌋₊ := by
  have hpre : (startSession cex90State 0 wOracles).prefilledIndices =
      prefilledSetOf wOracles cex90State.difficulty cex90Heading.items := by
    simp only [startSession, show cex90State.headings[0]? = some cex90Heading from rfl]
  have hcard : (startSession cex90State 0 wOracles).prefilledIndices.card
      = numToPrefill cex90State.difficulty (playablePairs cex90Heading.items).length := by
    rw [hpre, card_prefilledSetOf]
  rw [hcard, playablePairs_length]
  rw [show (cex90Heading.items.filter (fun it => !it.isStatic)).length = 90 from by decide]
  rw [show numToPrefill cex90State.difficulty 90 = 62 from by decide]
  rw [show ((90 : ℕ) : ℚ) * idealPrefillFraction Difficulty.easy = ((63 : ℕ) : ℚ) from by
    simp only [idealPrefillFraction]
    norm_num]
  rw [Nat.floor_natCast]
  decide

/-- Membership in the other-headings list: a heading at a position different
from the target index. -/
lemma mem_otherHeadings {headings : List GameHeading} {index : Nat} {h : GameHeading}
    (hmem : h ∈ otherHeadings headings index) :
    ∃ j : Nat, j ≠ index ∧ headings[j]? = some h := by
  unfold otherHeadings at hmem
  obtain ⟨p, hp, rfl⟩ := List.mem_map.mp hmem
  have hpe := List.mem_of_mem_filter hp
  have hpf := List.of_mem_filter hp
  exact ⟨p.1, by simpa using hpf, List.mem_enum_iff_getElem?.mp hpe⟩

/-- Every collected intruder is a non-static item of one of the other headings. -/
lemma mem_collectIntruders {others : List GameHeading} {pickH pickI : Nat → Nat} :
    ∀ {n k : Nat} {d : GameItem}, d ∈ collectIntruders others pickH pickI n k →
      ∃ h ∈ others, d ∈ h.items ∧ d.isStatic = false := by
  intro n k
  induction k generalizing n with
  | zero => intro d hd; cases hd
  | succ kp ih =>
    intro d hd
    simp only [collectIntruders] at hd
    split at hd
    · next ho =>
      split at hd
      · next hi =>
        split at hd
        · next => exact ih hd
        · next hstat =>
          rcases List.mem_cons.mp hd with rfl | hd2
          · refine ⟨others.get ⟨pickH n % others.length, Nat.mod_lt _ ho⟩,
              List.get_mem _ _ _, List.get_mem _ _ _, ?_⟩
            simpa using hstat
          · exact ih hd2
      · exact ih hd
    · exact ih hd

/-- C6 (amended): a decoy drawn by the session generator is never
`SlotCorrect` in the target group, provided the other groups' titles differ
from the target's (the parser allows duplicate heading titles, under which a
decoy can hit the exact-position branch — see the counterexample) and the
decoy's `flexGroupId` does not collide with a truthy flex id of the target
group ("pathologically identical flex ids", accepted by the spec). -/
theorem sessionIntruders_not_correct (st : GameState) (index : Nat) (or : SessionOracles)
    (heading : GameHeading) (horig : st.headings[index]? = some heading)
    (hown : ∀ h ∈ st.headings, ∀ it ∈ h.items, it.originalHeading = h.title)
    (htitle : ∀ h2 ∈ otherHeadings st.headings index, h2.title ≠ heading.title)
    (hflex : ∀ d ∈ sessionIntruders st index or, ∀ it ∈ heading.items,
      jsTruthyS it.flexGroupId = true → d.flexGroupId ≠ it.flexGroupId) :
    ∀ d ∈ sessionIntruders st index or, ∀ i : Nat, isSlotCorrect (some d) i heading = false := by
  intro d hd i
  have hmem : ∃ h ∈ otherHeadings st.headings index, d ∈ h.items ∧ d.isStatic = false := by
    simp only [sessionIntruders] at hd
    split at hd
    · exact mem_collectIntruders hd
    · cases hd
  obtain ⟨h, hho, hdh, _⟩ := hmem
  obtain ⟨j, hjne, hj⟩ := mem_otherHeadings hho
  have hdtitle : d.originalHeading = h.title := hown h (List.getElem?_mem hj) d hdh
  have hne : d.originalHeading ≠ heading.title := by
    rw [hdtitle]; exact htitle h hho
  rw [Bool.eq_false_iff]
  intro htrue
  rw [isSlotCorrect_some_iff] at htrue
  rcases htrue with ⟨_, hx⟩ | ⟨orig, fid, horig2, hf, hne2, hitem⟩
  · exact hne hx
  · have horigmem : orig ∈ heading.items := List.getElem?_mem horig2
    have hcol := hflex d hd orig horigmem
      (by rw [jsTruthyS_eq_true_iff]; exact ⟨fid, hf, hne2⟩)
    exact hcol (by rw [hitem, hf])

/-- A deterministic id oracle (kept injective by embedding the draw number). -/
def cexRndId : Nat → String := fun n => "r" ++ Nat.repr n

/-- A constant flex-id oracle for concrete runs. -/
def cexRndFlex : Nat → Nat → String := fun _ _ => "abc"

/-- A document with two identically titled groups. -/
def cexDupState : GameState :=
  parseMarkdownToGame cexRndId cexRndFlex "# A\nx\n# A\nx" "f" "p"

/-- C6 counterexample: starting a session on the first "A" group of a
document with a second, identically titled "A" group draws the other group's
fragment as a decoy; that decoy enters the pool and `SlotCorrect` accepts it
at slot 0 via the exact-position branch (`originalIndex = 0` and
`originalGroup = "A"` both match). -/
theorem sessionIntruders_correct_counterexample :
    sessionIntruders cexDupState 0 wOracles ≠ [] ∧
    ((sessionIntruders cexDupState 0 wOracles).headD default)
      ∈ (startSession cexDupState 0 wOracles).poolItems ∧
    isSlotCorrect (some ((sessionIntruders cexDupState 0 wOracles).headD default)) 0
      (cexDupState.headings.headD default) = true := by
  decide

/-- A document with two distinctly titled groups. -/
def cexTwoState : GameState :=
  parseMarkdownToGame cexRndId cexRndFlex "# A\nx\n# B\ny" "f" "p"

/-- Witness for the amended C6: with distinct titles, the drawn decoy is not
correct in any slot of the target group. -/
theorem sessionIntruders_not_correct_witness :
    isSlotCorrect (some ((sessionIntruders cexTwoState 0 wOracles).headD default)) 0
      (cexTwoState.headings.headD default) = false :=
  sessionIntruders_not_correct cexTwoState 0 wOracles (cexTwoState.headings.headD default)
    (by decide) (by decide) (by decide) (by decide)
    ((sessionIntruders cexTwoState 0 wOracles).headD default) (by decide) 0

/-- The session state after winning group 0 of the two-group document
(the drop placed the only fragment; the win check fired and scheduled the
delayed transition). -/
def cexWinPlaced : GameState × Bool :=
  placeSelected (startSession cexTwoState 0 wOracles) 0
    ((cexTwoState.headings.headD default).items.headD default)

/-- The state after the player returned to the lobby and started a session
on group 1 before the scheduled timer fired. -/
def cexReplacedSession : GameState :=
  startSession (backToLobby cexWinPlaced.1) 1 wOracles

/-- C9 evaluation: the win check schedules the delayed transition; the player
goes back and starts a new session on group 1; when the timer fires, its body
(`state.activeHeadingIndex = null`) mutates the replaced session's state,
kicking the new session back to the lobby instead of being cancelled or a
no-op. -/
theorem winTimer_mutates_replaced_session :
    cexWinPlaced.2 = true ∧
    cexReplacedSession.activeHeadingIndex = some 1 ∧
    (winTimerProc cexReplacedSession).activeHeadingIndex = none := by
  decide

/-! ### Helper lemmas: the parser -/

/-- `takeWhile` keeps a fully satisfying prefix up to the first failure. -/
lemma takeWhile_append_not {α : Type} (p : α → Bool) :
    ∀ (xs : List α) (y : α) (ys : List α), (∀ c ∈ xs, p c = true) → p y = false →
      (xs ++ y :: ys).takeWhile p = xs := by
  intro xs y ys hxs hy
  induction xs with
  | nil => simp [List.takeWhile_cons, hy]
  | cons x t ih =>
    have hx : p x = true := hxs x (List.mem_cons_self x t)
    simp only [List.cons_append, List.takeWhile_cons, hx, if_true]
    rw [ih (fun c hc => hxs c (List.mem_cons_of_mem x hc))]

/-- `dropWhile` passes over a final element it does not satisfy. -/
lemma dropWhile_append_single {α : Type} (p : α → Bool) :
    ∀ (xs : List α) (y : α), p y = false →
      (xs ++ [y]).dropWhile p = xs.dropWhile p ++ [y] := by
  intro xs y hy
  induction xs with
  | nil => simp [List.dropWhile_cons, hy]
  | cons x t ih =>
    by_cases hx : p x = true
    · simp only [List.cons_append, List.dropWhile_cons, hx, if_true]
      exact ih
    · have hx2 : p x = false := by simpa using hx
      simp [List.dropWhile_cons, hx2]

/-- Trailing-whitespace stripping keeps a non-whitespace head. -/
lemma trimEnd_cons_of_not_ws {c : Char} (hc : jsWS c = false) (t : List Char) :
    trimEnd (c :: t) = c :: trimEnd t := by
  unfold trimEnd
  rw [show (c :: t).reverse = t.reverse ++ [c] by simp]
  rw [dropWhile_append_single jsWS t.reverse c hc]
  simp

/-- Trimming keeps a non-whitespace head. -/
lemma jsTrimChars_cons_of_not_ws {c : Char} (hc : jsWS c = false) (t : List Char) :
    jsTrimChars (c :: t) = c :: trimEnd t := by
  unfold jsTrimChars
  rw [List.dropWhile_cons, hc]
  simp only [Bool.false_eq_true, if_false]
  exact trimEnd_cons_of_not_ws hc t

/-- A line accepted by the heading regex starts with `#`. -/
lemma headingParse_some_head {line : String} {lt : Nat × String}
    (h : headingParse line = some lt) : ∃ t, line.data = '#' :: t := by
  unfold headingParse at h
  cases hcs : line.data with
  | nil => rw [hcs] at h; simp at h
  | cons c t =>
    rw [hcs] at h
    by_cases hc : c = '#'
    · exact ⟨t, by rw [hc]⟩
    · exfalso
      have : (c == '#') = false := by simpa using hc
      simp [List.takeWhile_cons, this] at h

/-- The `sepMiddle` language rejects words starting with `#`. -/
lemma sepMiddle_hash (x : List Char) : sepMiddle ('#' :: x) = false := by
  unfold sepMiddle
  rw [List.dropWhile_cons]
  have hws : jsWS '#' = false := by decide
  rw [hws]
  simp only [Bool.false_eq_true, if_false]
  rw [trimEnd_cons_of_not_ws hws x]
  simp [List.all_cons]

/-- The separator-row regex rejects lines starting with `#`. -/
lemma sepMatch_hash (w : List Char) : sepMatch (String.mk ('#' :: w)) = false := by
  unfold sepMatch
  have hbody : (if ('#' :: w).head? == some '|' then ('#' :: w).tail else ('#' :: w)) = '#' :: w := by
    simp
  simp only [String.data] at hbody ⊢
  rw [hbody, List.any_eq_false]
  intro k _
  cases k with
  | zero => simp [sepMiddle]
  | succ kp =>
    rw [List.take_succ_cons, sepMiddle_hash]
    simp

/-- The separator-row regex rejects the empty next line. -/
lemma sepMatch_empty : sepMatch "" = false := by decide

/-- A line matching the heading regex is nonempty. -/
lemma headingParse_some_ne_empty {line : String} {lt : Nat × String}
    (h : headingParse line = some lt) : line ≠ "" := by
  obtain ⟨t, ht⟩ := headingParse_some_head h
  intro he
  rw [he] at ht
  exact List.noConfusion ht

/-- A string starting (after trim) with a given character has it as trimmed head. -/
lemma startsWithChars_cons_head {s : String} {c : Char} {p : List Char}
    (h : startsWithChars s (c :: p) = true) : s.data.head? = some c := by
  unfold startsWithChars at h
  cases hd : s.data with
  | nil => rw [hd] at h; simp [List.isPrefixOf] at h
  | cons b t =>
    rw [hd] at h
    simp only [List.isPrefixOf, Bool.and_eq_true] at h
    rw [List.head?_cons]
    exact congrArg some (beq_iff_eq.mp h.1).symm

/-- A pipe-starting trimmed line is nonempty. -/
lemma startsPipe_not_empty {line : String}
    (h : startsWithChars (jsTrim line) ['|'] = true) : line ≠ "" := by
  intro he
  rw [he] at h
  exact absurd h (by decide)

/-- The trimmed form of a heading line starts with `#`. -/
lemma headingParse_jsTrim_head {line : String} {lt : Nat × String}
    (h : headingParse line = some lt) : ∃ t2, (jsTrim line).data = '#' :: t2 := by
  obtain ⟨t, ht⟩ := headingParse_some_head h
  refine ⟨trimEnd t, ?_⟩
  show jsTrimChars line.data = _
  rw [ht, jsTrimChars_cons_of_not_ws (by decide)]

/-- A pipe-starting trimmed line is not a heading line. -/
lemma startsPipe_headingParse_none {line : String}
    (h : startsWithChars (jsTrim line) ['|'] = true) : headingParse line = none := by
  cases hh : headingParse line with
  | none => rfl
  | some lt =>
    obtain ⟨t2, ht⟩ := headingParse_jsTrim_head hh
    have hhead := startsWithChars_cons_head h
    rw [ht, List.head?_cons] at hhead
    exact absurd hhead (by decide)

/-- A pipe-starting trimmed line is not a callout header. -/
lemma startsPipe_not_callout {line : String}
    (h : startsWithChars (jsTrim line) ['|'] = true) :
    startsWithChars (jsTrim line) ['>', ' ', '[', '!'] = false := by
  cases hc : startsWithChars (jsTrim line) ['>', ' ', '[', '!'] with
  | false => rfl
  | true =>
    have h1 := startsWithChars_cons_head h
    have h2 := startsWithChars_cons_head hc
    rw [h1] at h2
    exact absurd h2 (by decide)

/-- Branch equation: a zero-length line is skipped. -/
lemma parseStep_blank (rndId : Nat → String) (rest : List String) (st : PState) :
    parseStep rndId "" rest st = (rest, { st with i := st.i + 1 }) := by
  unfold parseStep
  rw [if_pos rfl]

/-- Branch equation: a level ≤ 2 heading closes a nonempty current group and
opens a fresh one. -/
lemma parseStep_heading_le2 (rndId : Nat → String) {line : String} (rest : List String)
    (st : PState) {lt : Nat × String} (hh : headingParse line = some lt) (hle : lt.1 ≤ 2) :
    parseStep rndId line rest st =
      (rest,
        { st with
          i := st.i + 1
          finished := if st.cur.items.length > 0 then st.finished ++ [st.cur] else st.finished
          cur := { title := lt.2, items := [], isRestored := false } }) := by
  unfold parseStep
  rw [if_neg (headingParse_some_ne_empty hh), hh]
  dsimp only
  rw [if_pos hle]

/-- Branch equation: a level ≥ 3 heading is pushed as a sub-heading fragment. -/
lemma parseStep_subheading (rndId : Nat → String) {line : String} (rest : List String)
    (st : PState) {lt : Nat × String} (hh : headingParse line = some lt) (hgt : ¬ lt.1 ≤ 2) :
    parseStep rndId line rest st =
      (rest,
        { st with
          i := st.i + 1
          c := st.c + 1
          cur := pushItem rndId st.c st.cur line false true none }) := by
  unfold parseStep
  rw [if_neg (headingParse_some_ne_empty hh), hh]
  dsimp only
  rw [if_neg hgt]

/-- Branch equation: a pipe-starting line whose next line is a separator row
opens a table block; its rows are consumed in the same step. -/
lemma parseStep_table (rndId : Nat → String) {line r1 : String} (rest2 : List String)
    (st : PState) (hpipe : startsWithChars (jsTrim line) ['|'] = true)
    (hsep : sepMatch (jsTrim r1) = true) :
    parseStep rndId line (r1 :: rest2) st =
      (rest2.dropWhile (fun l => startsWithChars (jsTrim l) ['|']),
        { st with
          i := st.i + 2 + (rest2.takeWhile (fun l => startsWithChars (jsTrim l) ['|'])).length
          c := st.c + 2 + (rest2.takeWhile (fun l => startsWithChars (jsTrim l) ['|'])).length
          cur := pushRows rndId ("table-" ++ Nat.repr st.i)
            (rest2.takeWhile (fun l => startsWithChars (jsTrim l) ['|'])) (st.c + 2)
            (pushItem rndId (st.c + 1)
              (pushItem rndId st.c st.cur line true false (some ("table-" ++ Nat.repr st.i)))
              r1 true false (some ("table-" ++ Nat.repr st.i))) }) := by
  unfold parseStep
  rw [if_neg (startsPipe_not_empty hpipe), startsPipe_headingParse_none hpipe]
  dsimp only
  rw [show (r1 :: rest2).head?.getD "" = r1 from rfl]
  rw [hpipe, hsep]
  rw [if_pos (show (true && true) = true from rfl)]

/-- Branch equation: a callout header opens a callout block; its continuation
rows are consumed in the same step. -/
lemma parseStep_callout (rndId : Nat → String) {line : String} (rest : List String)
    (st : PState) (hh : headingParse line = none) (hne : line ≠ "")
    (hnotsep : (startsWithChars (jsTrim line) ['|'] &&
      sepMatch (jsTrim (rest.head?.getD ""))) = false)
    (hco : startsWithChars (jsTrim line) ['>', ' ', '[', '!'] = true) :
    parseStep rndId line rest st =
      (rest.dropWhile (fun l => startsWithChars (jsTrim l) ['>']),
        { st with
          i := st.i + 1 + (rest.takeWhile (fun l => startsWithChars (jsTrim l) ['>'])).length
          c := st.c + 1 + (rest.takeWhile (fun l => startsWithChars (jsTrim l) ['>'])).length
          cur := pushRows rndId ("callout-" ++ Nat.repr st.i)
            (rest.takeWhile (fun l => startsWithChars (jsTrim l) ['>'])) (st.c + 1)
            (pushItem rndId st.c st.cur line true false
              (some ("callout-" ++ Nat.repr st.i))) }) := by
  unfold parseStep
  rw [if_neg hne, hh]
  dsimp only
  rw [hnotsep]
  rw [if_neg (show ¬ (false = true) by simp), hco]
  rw [if_pos (show true = true from rfl)]

/-- Branch equation: any other line becomes an ordinary fragment. -/
lemma parseStep_ordinary (rndId : Nat → String) {line : String} (rest : List String)
    (st : PState) (hh : headingParse line = none) (hne : line ≠ "")
    (hnotsep : (startsWithChars (jsTrim line) ['|'] &&
      sepMatch (jsTrim (rest.head?.getD ""))) = false)
    (hnotco : startsWithChars (jsTrim line) ['>', ' ', '[', '!'] = false) :
    parseStep rndId line rest st =
      (rest,
        { st with
          i := st.i + 1
          c := st.c + 1
          cur := pushItem rndId st.c st.cur line false false none }) := by
  unfold parseStep
  rw [if_neg hne, hh]
  dsimp only
  rw [hnotsep]
  rw [if_neg (show ¬ (false = true) by simp), hnotco]
  rw [if_neg (show ¬ (false = true) by simp)]

/-- Strings with equal character data are equal. -/
lemma string_ext {s1 s2 : String} (h : s1.data = s2.data) : s1 = s2 := by
  cases s1; cases s2; exact congrArg String.mk h

/-- The trimmed form of a heading line never starts with another character. -/
lemma heading_jsTrim_not_starts {line : String} {lt : Nat × String}
    (hh : headingParse line = some lt) {c : Char} (hc : c ≠ '#') (p : List Char) :
    startsWithChars (jsTrim line) (c :: p) = false := by
  cases hb : startsWithChars (jsTrim line) (c :: p) with
  | false => rfl
  | true =>
    obtain ⟨t2, ht⟩ := headingParse_jsTrim_head hh
    have h2 := startsWithChars_cons_head hb
    rw [ht, List.head?_cons] at h2
    injection h2 with h2
    exact absurd h2.symm hc

/-- A heading line never matches the table separator-row regex. -/
lemma heading_sepMatch_false {line : String} {lt : Nat × String}
    (hh : headingParse line = some lt) : sepMatch (jsTrim line) = false := by
  obtain ⟨t2, ht⟩ := headingParse_jsTrim_head hh
  have : jsTrim line = String.mk ('#' :: t2) := string_ext ht
  rw [this]
  exact sepMatch_hash t2

/-- `dropWhile` preserves a last element it does not satisfy. -/
lemma getLast?_dropWhile {α : Type} (p : α → Bool) :
    ∀ (l : List α) (x : α), l.getLast? = some x → p x = false →
      (l.dropWhile p).getLast? = some x := by
  intro l
  induction l with
  | nil => intro x hx _; cases hx
  | cons a t ih =>
    intro x hx hpx
    cases t with
    | nil =>
      have hax : a = x := by simpa using hx
      subst hax
      rw [List.dropWhile_cons, hpx]
      simpa using hx
    | cons b t2 =>
      have hx2 : (b :: t2).getLast? = some x := by
        rw [← List.getLast?_cons_cons (a := a)]; exact hx
      rw [List.dropWhile_cons]
      by_cases hpa : p a = true
      · rw [hpa]
        simp only [if_true]
        exact ih x hx2 hpx
      · have hpa2 : p a = false := by simpa using hpa
        rw [hpa2]
        simpa using hx

/-- Each parse step consumes at least one line: the remaining lines are
strictly fewer than before the step. -/
lemma parseStep_shrinks (rndId : Nat → String) (line : String) (rest : List String)
    (st : PState) : (parseStep rndId line rest st).1.length ≤ rest.length := by
  unfold parseStep
  dsimp only
  split
  · exact Nat.le_refl _
  · split
    · split <;> exact Nat.le_refl _
    · split
      · split
        · exact Nat.le_refl _
        · exact Nat.le_trans (List.dropWhile_sublist _).length_le (by simp)
      · split
        · exact (List.dropWhile_sublist _).length_le
        · exact Nat.le_refl _

/-- Loop equation: no lines left. -/
lemma parseRunF_nil (rndId : Nat → String) (fuel : Nat) (st : PState) :
    parseRunF rndId fuel [] st = st := by
  cases fuel <;> rfl

/-- Loop equation: one more step. -/
lemma parseRunF_cons (rndId : Nat → String) (fuel : Nat) (line : String) (rest : List String)
    (st : PState) :
    parseRunF rndId (fuel + 1) (line :: rest) st =
      parseRunF rndId fuel (parseStep rndId line rest st).1 (parseStep rndId line rest st).2 := rfl

/-- C8: a `|`-starting line whose next line is not a valid separator row is
emitted as a single ordinary fragment (non-static, not a sub-heading, no
`blockId`) and the loop moves on — and parsing is total: every step consumes
at least one line, so the fuel-driven loop never aborts. -/
theorem malformed_table_recovery (rndId : Nat → String) (line : String) (rest : List String)
    (st : PState) (hpipe : startsWithChars (jsTrim line) ['|'] = true)
    (hnosep : sepMatch (jsTrim (rest.head?.getD "")) = false) :
    parseStep rndId line rest st =
      (rest,
        { st with
          i := st.i + 1
          c := st.c + 1
          cur := pushItem rndId st.c st.cur line false false none }) ∧
    (∀ (line2 : String) (rest2 : List String) (st2 : PState),
      (parseStep rndId line2 rest2 st2).1.length ≤ rest2.length) := by
  refine ⟨?_, fun line2 rest2 st2 => parseStep_shrinks rndId line2 rest2 st2⟩
  apply parseStep_ordinary rndId rest st (startsPipe_headingParse_none hpipe)
    (startsPipe_not_empty hpipe)
  · rw [hpipe, hnosep]; rfl
  · exact startsPipe_not_callout hpipe

/-- The parser's initial state. -/
def wPState : PState :=
  { i := 0, c := 0, finished := [],
    cur := { title := "Introduction", items := [], isRestored := false } }

/-- Witness for C8: the lone `| x |` line (next line not a separator) becomes
one ordinary fragment. -/
theorem malformed_table_recovery_witness :
    (parseStep cexRndId "| x |" ["plain"] wPState).2.cur.items.map
        (fun it => (it.text, it.isStatic, it.isSubHeading, it.blockId)) =
      [("| x |", false, false, none)] := by
  rw [(malformed_table_recovery cexRndId "| x |" ["plain"] wPState (by decide) (by decide)).1]
  decide

/-- If the last remaining line is a level ≤ 2 heading, the loop ends with a
freshly opened (hence empty) current group. -/
lemma parseRunF_trailing_heading (rndId : Nat → String) :
    ∀ (fuel : Nat) (lines : List String) (st : PState), lines.length ≤ fuel →
      (∃ hline lt, lines.getLast? = some hline ∧ headingParse hline = some lt ∧ lt.1 ≤ 2) →
      (parseRunF rndId fuel lines st).cur.items = [] := by
  intro fuel
  induction fuel with
  | zero =>
    intro lines st hlen hex
    obtain ⟨hline, lt, hlast, _, _⟩ := hex
    have : lines = [] := List.length_eq_zero.mp (Nat.le_zero.mp hlen)
    rw [this] at hlast
    cases hlast
  | succ f ih =>
    intro lines st hlen hex
    obtain ⟨hline, lt, hlast, hh, hle⟩ := hex
    cases lines with
    | nil => cases hlast
    | cons line rest =>
      have hlenr : rest.length ≤ f := by simpa using hlen
      rw [parseRunF_cons]
      by_cases hne : rest = []
      · -- the heading is this very line; it opens a fresh empty group
        subst hne
        have hlline : line = hline := by simpa using hlast
        subst hlline
        rw [parseStep_heading_le2 rndId [] st hh hle]
        rw [parseRunF_nil]
      · have hlast2 : rest.getLast? = some hline := by
          cases rest with
          | nil => exact absurd rfl hne
          | cons r1 rest2 =>
            rw [← List.getLast?_cons_cons (a := line)]
            exact hlast
        have happly : ∀ rem : List String, rem.length ≤ f → rem.getLast? = some hline →
            ∀ st2 : PState, (parseRunF rndId f rem st2).cur.items = [] := by
          intro rem hremlen hremlast st2
          exact ih rem st2 hremlen ⟨hline, lt, hremlast, hh, hle⟩
        by_cases hbl : line = ""
        · subst hbl
          rw [parseStep_blank]
          exact happly rest hlenr hlast2 _
        · cases hhp : headingParse line with
          | some lt2 =>
            by_cases hle2 : lt2.1 ≤ 2
            · rw [parseStep_heading_le2 rndId rest st hhp hle2]
              exact happly rest hlenr hlast2 _
            · rw [parseStep_subheading rndId rest st hhp hle2]
              exact happly rest hlenr hlast2 _
          | none =>
            by_cases htab : (startsWithChars (jsTrim line) ['|'] &&
                sepMatch (jsTrim (rest.head?.getD ""))) = true
            · obtain ⟨r1, rest2, hrest⟩ : ∃ r1 rest2, rest = r1 :: rest2 := by
                cases rest with
                | nil => exact absurd rfl hne
                | cons a b => exact ⟨a, b, rfl⟩
              rw [Bool.and_eq_true] at htab
              obtain ⟨hpipe, hsep0⟩ := htab
              have hsep : sepMatch (jsTrim r1) = true := by
                rw [hrest] at hsep0
                exact hsep0
              rw [hrest, parseStep_table rndId rest2 st hpipe hsep]
              by_cases h2 : rest2 = []
              · exfalso
                have hr1 : r1 = hline := by
                  rw [hrest, h2] at hlast2
                  simpa using hlast2
                rw [hr1, heading_sepMatch_false hh] at hsep
                cases hsep
              · apply happly
                · refine Nat.le_trans (List.dropWhile_sublist _).length_le ?_
                  rw [hrest] at hlenr
                  simp only [List.length_cons] at hlenr
                  omega
                · apply getLast?_dropWhile _ rest2 hline ?_
                    (heading_jsTrim_not_starts hh (by decide) [])
                  rw [hrest] at hlast2
                  cases hr2 : rest2 with
                  | nil => exact absurd hr2 h2
                  | cons x y =>
                    rw [hr2] at hlast2
                    rw [← List.getLast?_cons_cons (a := r1)]
                    exact hlast2
            · by_cases hco : startsWithChars (jsTrim line) ['>', ' ', '[', '!'] = true
              · rw [parseStep_callout rndId rest st hhp hbl (by simpa using htab) hco]
                apply happly
                · exact Nat.le_trans (List.dropWhile_sublist _).length_le hlenr
                · exact getLast?_dropWhile _ rest hline hlast2
                    (heading_jsTrim_not_starts hh (by decide) [])
              · rw [parseStep_ordinary rndId rest st hhp hbl (by simpa using htab)
                  (by simpa using hco)]
                exact happly rest hlenr hlast2 _

/-- The flexible-group pass preserves the number of groups. -/
lemma applyFlex_length (rndFlex : Nat → Nat → String) (hs : List GameHeading) :
    (applyFlex rndFlex hs).length = hs.length := by
  unfold applyFlex
  rw [List.length_map, List.enum_length]

/-- The flexible-group pass over a list ending in `h` transforms `h` in place. -/
lemma applyFlex_concat (rndFlex : Nat → Nat → String) (hs : List GameHeading) (h : GameHeading) :
    applyFlex rndFlex (hs ++ [h]) =
      applyFlex rndFlex hs ++
        [{ h with items := flexGo h.title (rndFlex hs.length) 0 flexInit h.items }] := by
  unfold applyFlex
  show ((hs ++ [h]).enumFrom 0).map _ = ((hs.enumFrom 0).map _) ++ _
  rw [List.enumFrom_append]
  rw [List.map_append]
  simp [List.enumFrom_singleton]

/-- C10: the parser always returns at least one group; the empty document
yields exactly the default "Introduction" group with no fragments; a document
whose last line is a level ≤ 2 heading ends with a trailing empty group; and
a level ≤ 2 heading closes the current group exactly when that group already
holds at least one fragment (opening a fresh empty group either way). -/
theorem parse_groups_spec (rndId : Nat → String) (rndFlex : Nat → Nat → String)
    (content fileName filePath : String) :
    1 ≤ (parseMarkdownToGame rndId rndFlex content fileName filePath).headings.length ∧
    (parseMarkdownToGame rndId rndFlex "" fileName filePath).headings =
      [{ title := "Introduction", items := [], isRestored := false }] ∧
    (∀ (hline : String) (lt : Nat × String),
      (splitLines content).getLast? = some hline → headingParse hline = some lt → lt.1 ≤ 2 →
      (parseMarkdownToGame rndId rndFlex content fileName filePath).headings.getLast?.map
        GameHeading.items = some []) ∧
    (∀ (line : String) (rest : List String) (st : PState) (lt : Nat × String),
      headingParse line = some lt → lt.1 ≤ 2 →
      (parseStep rndId line rest st).2.finished =
        (if 0 < st.cur.items.length then st.finished ++ [st.cur] else st.finished) ∧
      (parseStep rndId line rest st).2.cur.items = []) := by
  have hh : (parseMarkdownToGame rndId rndFlex content fileName filePath).headings =
      applyFlex rndFlex
        ((parseRunF rndId (splitLines content).length (splitLines content) wPState).finished
          ++ [(parseRunF rndId (splitLines content).length (splitLines content) wPState).cur]) :=
    rfl
  refine ⟨?_, ?_, ?_, ?_⟩
  · rw [hh, applyFlex_length]
    simp
  · rfl
  · intro hline lt hlast hhead hle
    have hcur : (parseRunF rndId (splitLines content).length (splitLines content)
        wPState).cur.items = [] :=
      parseRunF_trailing_heading rndId (splitLines content).length (splitLines content) wPState
        (Nat.le_refl _) ⟨hline, lt, hlast, hhead, hle⟩
    rw [hh, applyFlex_concat, List.getLast?_concat]
    simp only [Option.map_some']
    rw [hcur]
    rfl
  · intro line rest st lt hhead hle
    rw [parseStep_heading_le2 rndId rest st hhead hle]
    exact ⟨rfl, rfl⟩

/-- Witness for C10: a document ending in a level-1 heading line yields a
trailing group with zero fragments. -/
theorem parse_groups_spec_witness :
    (parseMarkdownToGame cexRndId cexRndFlex "x\n# A" "f" "p").headings.getLast?.map
      GameHeading.items = some [] :=
  (parse_groups_spec cexRndId cexRndFlex "x\n# A" "f" "p").2.2.1 "# A" (1, "A")
    (by decide) (by decide) (by decide)

/-- A string built from the `flex-` prefix is never empty. -/
lemma flex_id_ne_empty (x : String) : ("flex-" ++ x) ≠ "" := by
  intro h
  have hd := congrArg String.data h
  rw [String.data_append] at hd
  exact List.noConfusion hd

/-- Soundness of the flexible-group pass: whenever the output fragment at
position `k` carries a `flexGroupId`, it is an unordered, non-static,
non-sub-heading leaf (no following input fragment is more indented), and the
id is a nonempty string. -/
lemma flexGo_sound (title : String) (rndF : Nat → String) :
    ∀ (items : List GameItem) (j : Nat) (fs : FlexState),
      (fs.currentFlex = none ∨ ∃ s, fs.currentFlex = some s ∧ s ≠ "") →
      (∀ it ∈ items, it.flexGroupId = none) →
      ∀ (k : Nat) (o : GameItem), (flexGo title rndF j fs items)[k]? = some o →
        o.flexGroupId ≠ none →
        (isUnorderedText o.text = true ∧ o.isStatic = false ∧ o.isSubHeading = false ∧
          (∀ nxt, items[k + 1]? = some nxt → ¬ (o.indentation < nxt.indentation)) ∧
          ∃ s, o.flexGroupId = some s ∧ s ≠ "") := by
  intro items
  induction items with
  | nil => intro j fs _ _ k o h; cases h
  | cons item rest ih =>
    intro j fs hinv hnone k o h hflex
    simp only [flexGo] at h
    -- name the pieces of the unfolded step
    set stack1 := popParents (item.indentation : Int) fs.parentStack with hstack1
    set parentIdx := (stack1.headD ((-1 : Int), (-1 : Int))).2 with hparent
    set isUn := isUnorderedText item.text with hisUn
    set hasCh := (match rest.head? with
      | some nxt => decide (item.indentation < nxt.indentation)
      | none => false) with hhasCh
    set isStat := item.isStatic || item.isSubHeading with hisStat
    set newFlex := (if !isUn || isStat || hasCh then none
      else if fs.currentFlex = none ∨ parentIdx ≠ fs.lastParentIdx ∨
          (item.indentation : Int) ≠ fs.lastIndent then
        some ("flex-" ++ title ++ "-" ++ Nat.repr j ++ "-" ++ rndF j)
      else fs.currentFlex) with hnewFlex
    have hinv2 : newFlex = none ∨ ∃ s, newFlex = some s ∧ s ≠ "" := by
      rw [hnewFlex]
      by_cases hC : (!isUn || isStat || hasCh) = true
      · rw [if_pos hC]; exact Or.inl rfl
      · rw [if_neg hC]
        by_cases hN : fs.currentFlex = none ∨ parentIdx ≠ fs.lastParentIdx ∨
            (item.indentation : Int) ≠ fs.lastIndent
        · rw [if_pos hN]
          exact Or.inr ⟨_, rfl, flex_id_ne_empty _⟩
        · rw [if_neg hN]
          rcases hinv with hc | hc
          · exact absurd (Or.inl hc) hN
          · exact Or.inr hc
    cases k with
    | zero =>
      simp only [List.getElem?_cons_zero] at h
      injection h with h
      by_cases hC : (!isUn || isStat || hasCh) = true
      · rw [if_pos hC] at h
        subst h
        exact absurd (hnone item (List.mem_cons_self _ _)) hflex
      · rw [if_neg hC] at h
        subst h
        have hC2 : isUn = true ∧ isStat = false ∧ hasCh = false := by
          rcases hu : isUn with _ | _ <;> rcases hs : isStat with _ | _ <;>
            rcases hch : hasCh with _ | _ <;> simp_all
        obtain ⟨hu, hs, hch⟩ := hC2
        have hstat2 : item.isStatic = false ∧ item.isSubHeading = false := by
          rw [hisStat] at hs
          exact ⟨by simpa using (Bool.or_eq_false_iff.mp hs).1,
            by simpa using (Bool.or_eq_false_iff.mp hs).2⟩
        refine ⟨by simpa [hisUn] using hu, hstat2.1, hstat2.2, ?_, ?_⟩
        · intro nxt hnxt
          simp only [List.getElem?_cons_succ] at hnxt
          have hhead : rest.head? = some nxt := by
            cases rest with
            | nil => cases hnxt
            | cons a b => simpa using hnxt
          have hch2 : decide (item.indentation < nxt.indentation) = false := by
            rw [hhasCh, hhead] at hch
            exact hch
          intro hlt
          rw [decide_eq_true hlt] at hch2
          cases hch2
        · rcases hinv2 with hc | hc
          · exact absurd (by simpa using hc) hflex
          · exact hc
    | succ kp =>
      simp only [List.getElem?_cons_succ] at h
      have hnone2 : ∀ it ∈ rest, it.flexGroupId = none :=
        fun it hit => hnone it (List.mem_cons_of_mem _ hit)
      have := ih (j + 1) _ hinv2 hnone2 kp o h hflex
      refine ⟨this.1, this.2.1, this.2.2.1, ?_, this.2.2.2.2⟩
      intro nxt hnxt
      exact this.2.2.2.1 nxt (by simpa using hnxt)

/-- The flexible-group pass only ever writes the `flexGroupId` field. -/
lemma flexGo_shape (title : String) (rndF : Nat → String) :
    ∀ (items : List GameItem) (j : Nat) (fs : FlexState) (k : Nat) (o : GameItem),
      (flexGo title rndF j fs items)[k]? = some o →
      ∃ inp, items[k]? = some inp ∧ o = { inp with flexGroupId := o.flexGroupId } := by
  intro items
  induction items with
  | nil => intro j fs k o h; cases h
  | cons item rest ih =>
    intro j fs k o h
    simp only [flexGo] at h
    cases k with
    | zero =>
      simp only [List.getElem?_cons_zero] at h
      injection h with h
      refine ⟨item, by simp, ?_⟩
      split at h
      · rw [← h]
      · rw [← h]
    | succ kp =>
      simp only [List.getElem?_cons_succ] at h
      obtain ⟨inp, hinp, ho⟩ := ih (j + 1) _ kp o h
      exact ⟨inp, by simpa using hinp, ho⟩

/-- The flexible-group pass preserves the fragment ids. -/
lemma flexGo_map_id (title : String) (rndF : Nat → String) :
    ∀ (items : List GameItem) (j : Nat) (fs : FlexState),
      (flexGo title rndF j fs items).map (fun it => it.id) = items.map (fun it => it.id) := by
  intro items
  induction items with
  | nil => intro j fs; rfl
  | cons item rest ih =>
    intro j fs
    simp only [flexGo, List.map_cons]
    refine congrArg₂ List.cons ?_ (ih (j + 1) _)
    split <;> rfl

/-- A fragment of a pushed heading is an old fragment or the new `mkFragment`. -/
lemma pushItem_mem {rndId : Nat → String} {c : Nat} {h : GameHeading} {text : String}
    {isStatic isSub : Bool} {blockId : Option String} {it : GameItem}
    (hmem : it ∈ (pushItem rndId c h text isStatic isSub blockId).items) :
    it ∈ h.items ∨ it = mkFragment rndId c h.title h.items.length text isStatic isSub blockId := by
  unfold pushItem at hmem
  simpa using hmem

/-- A fragment after pushing rows is an old fragment or some `mkFragment`. -/
lemma pushRows_mem {rndId : Nat → String} {bId : String} :
    ∀ {rows : List String} {c : Nat} {h : GameHeading} {it : GameItem},
      it ∈ (pushRows rndId bId rows c h).items →
      it ∈ h.items ∨ ∃ c2 title pos text isStatic isSub blockId,
        it = mkFragment rndId c2 title pos text isStatic isSub blockId := by
  intro rows
  induction rows with
  | nil => intro c h it hmem; exact Or.inl hmem
  | cons row more ih =>
    intro c h it hmem
    rcases ih hmem with hold | hnew
    · rcases pushItem_mem hold with hold2 | hnew2
      · exact Or.inl hold2
      · exact Or.inr ⟨c, h.title, h.items.length, row, false, false, some bId, hnew2⟩
    · exact Or.inr hnew

/-- A fragment of the current group after one parse step is an old fragment
of the current group or a freshly made one. -/
lemma parseStep_cur_mem (rndId : Nat → String) (line : String) (rest : List String)
    (st : PState) {it : GameItem}
    (hmem : it ∈ (parseStep rndId line rest st).2.cur.items) :
    it ∈ st.cur.items ∨ ∃ c2 title pos text isStatic isSub blockId,
      it = mkFragment rndId c2 title pos text isStatic isSub blockId := by
  unfold parseStep at hmem
  dsimp only at hmem
  split at hmem
  · exact Or.inl hmem
  · split at hmem
    · split at hmem
      · cases hmem
      · rcases pushItem_mem hmem with hold | hnew
        · exact Or.inl hold
        · exact Or.inr ⟨_, _, _, _, _, _, _, hnew⟩
    · split at hmem
      · split at hmem
        · rcases pushItem_mem hmem with hold | hnew
          · exact Or.inl hold
          · exact Or.inr ⟨_, _, _, _, _, _, _, hnew⟩
        · rcases pushRows_mem hmem with hold | hnew
          · rcases pushItem_mem hold with hold2 | hnew2
            · rcases pushItem_mem hold2 with hold3 | hnew3
              · exact Or.inl hold3
              · exact Or.inr ⟨_, _, _, _, _, _, _, hnew3⟩
            · exact Or.inr ⟨_, _, _, _, _, _, _, hnew2⟩
          · exact Or.inr hnew
      · split at hmem
        · rcases pushRows_mem hmem with hold | hnew
          · rcases pushItem_mem hold with hold2 | hnew2
            · exact Or.inl hold2
            · exact Or.inr ⟨_, _, _, _, _, _, _, hnew2⟩
          · exact Or.inr hnew
        · rcases pushItem_mem hmem with hold | hnew
          · exact Or.inl hold
          · exact Or.inr ⟨_, _, _, _, _, _, _, hnew⟩

/-- A finished group after one parse step was finished before or is the
closed current group. -/
lemma parseStep_finished_mem (rndId : Nat → String) (line : String) (rest : List String)
    (st : PState) {h : GameHeading}
    (hmem : h ∈ (parseStep rndId line rest st).2.finished) :
    h ∈ st.finished ∨ h = st.cur := by
  unfold parseStep at hmem
  dsimp only at hmem
  split at hmem
  · exact Or.inl hmem
  · split at hmem
    · split at hmem
      · split at hmem
        · simpa using List.mem_append.mp hmem
        · exact Or.inl hmem
      · exact Or.inl hmem
    · split at hmem
      · split at hmem <;> exact Or.inl hmem
      · split at hmem <;> exact Or.inl hmem

/-- During the line-scanning phase no fragment has a `flexGroupId` yet. -/
lemma parseRunF_flex_none (rndId : Nat → String) :
    ∀ (fuel : Nat) (lines : List String) (st : PState),
      (∀ h ∈ st.finished, ∀ it ∈ h.items, it.flexGroupId = none) →
      (∀ it ∈ st.cur.items, it.flexGroupId = none) →
      (∀ h ∈ (parseRunF rndId fuel lines st).finished, ∀ it ∈ h.items,
        it.flexGroupId = none) ∧
      (∀ it ∈ (parseRunF rndId fuel lines st).cur.items, it.flexGroupId = none) := by
  intro fuel
  induction fuel with
  | zero =>
    intro lines st hfin hcur
    cases lines with
    | nil => exact ⟨hfin, hcur⟩
    | cons a b => exact ⟨hfin, hcur⟩
  | succ f ih =>
    intro lines st hfin hcur
    cases lines with
    | nil => exact ⟨hfin, hcur⟩
    | cons line rest =>
      rw [parseRunF_cons]
      apply ih
      · intro h hh it hit
        rcases parseStep_finished_mem rndId line rest st hh with hold | hc
        · exact hfin h hold it hit
        · rw [hc] at hit
          exact hcur it hit
      · intro it hit
        rcases parseStep_cur_mem rndId line rest st hit with hold | ⟨_, _, _, _, _, _, _, hnew⟩
        · exact hcur it hold
        · rw [hnew]
          rfl

/-- C3: in every parsed document, a fragment carrying a `flexGroupId` is an
unordered list item (marker `-`, `*` or `+`), not static, not a sub-heading,
and a leaf: no immediately following fragment of its group is strictly more
indented. -/
theorem flexGroup_soundness (rndId : Nat → String) (rndFlex : Nat → Nat → String)
    (content fileName filePath : String) :
    ∀ h ∈ (parseMarkdownToGame rndId rndFlex content fileName filePath).headings,
      ∀ (k : Nat) (o : GameItem), h.items[k]? = some o → o.flexGroupId ≠ none →
        isUnorderedText o.text = true ∧ o.isStatic = false ∧ o.isSubHeading = false ∧
        (∀ nxt, h.items[k + 1]? = some nxt → ¬ (o.indentation < nxt.indentation)) := by
  intro h hmem k o hk hflex
  have hh : (parseMarkdownToGame rndId rndFlex content fileName filePath).headings =
      applyFlex rndFlex
        ((parseRunF rndId (splitLines content).length (splitLines content) wPState).finished
          ++ [(parseRunF rndId (splitLines content).length (splitLines content) wPState).cur]) :=
    rfl
  rw [hh] at hmem
  unfold applyFlex at hmem
  obtain ⟨p, hp, hpeq⟩ := List.mem_map.mp hmem
  have hpmem : p.2 ∈ (parseRunF rndId (splitLines content).length (splitLines content)
      wPState).finished ++ [(parseRunF rndId (splitLines content).length (splitLines content)
      wPState).cur] :=
    List.getElem?_mem (List.mem_enum_iff_getElem?.mp hp)
  have hinv := parseRunF_flex_none rndId (splitLines content).length (splitLines content)
    wPState (by intro h2 hh2 it hit; cases hh2) (by intro it hit; cases hit)
  have hnone : ∀ it ∈ p.2.items, it.flexGroupId = none := by
    rcases List.mem_append.mp hpmem with hfin | hcur
    · exact hinv.1 p.2 hfin
    · have : p.2 = (parseRunF rndId (splitLines content).length (splitLines content)
          wPState).cur := by simpa using hcur
      rw [this]
      exact hinv.2
  have hitems : h.items = flexGo p.2.title (rndFlex p.1) 0 flexInit p.2.items := by
    rw [← hpeq]
  rw [hitems] at hk
  have hsound := flexGo_sound p.2.title (rndFlex p.1) p.2.items 0 flexInit
    (Or.inl rfl) hnone k o hk hflex
  refine ⟨hsound.1, hsound.2.1, hsound.2.2.1, ?_⟩
  intro nxt hnxt
  rw [hitems] at hnxt
  obtain ⟨inp, hinp, hshape⟩ := flexGo_shape p.2.title (rndFlex p.1) p.2.items 0 flexInit
    (k + 1) nxt hnxt
  have hind : nxt.indentation = inp.indentation := by
    rw [hshape]
  rw [hind]
  exact hsound.2.2.2.1 inp hinp

/-- Parsed flex ids are never the empty string (so JavaScript truthiness of
`flexGroupId` coincides with definedness on parsed groups, justifying the
hypothesis of `isSlotCorrect_spec`). -/
lemma parsed_flexGroupId_ne_empty (rndId : Nat → String) (rndFlex : Nat → Nat → String)
    (content fileName filePath : String) :
    ∀ h ∈ (parseMarkdownToGame rndId rndFlex content fileName filePath).headings,
      ∀ it ∈ h.items, it.flexGroupId ≠ some "" := by
  intro h hmem it hit
  obtain ⟨k, hk⟩ := List.mem_iff_getElem?.mp hit
  by_cases hflex : it.flexGroupId = none
  · rw [hflex]; intro hc; cases hc
  · -- reuse the soundness machinery for the nonempty-id part
    have hh : (parseMarkdownToGame rndId rndFlex content fileName filePath).headings =
        applyFlex rndFlex
          ((parseRunF rndId (splitLines content).length (splitLines content) wPState).finished
            ++ [(parseRunF rndId (splitLines content).length (splitLines content)
              wPState).cur]) :=
      rfl
    rw [hh] at hmem
    unfold applyFlex at hmem
    obtain ⟨p, hp, hpeq⟩ := List.mem_map.mp hmem
    have hpmem : p.2 ∈ (parseRunF rndId (splitLines content).length (splitLines content)
        wPState).finished ++ [(parseRunF rndId (splitLines content).length (splitLines content)
        wPState).cur] :=
      List.getElem?_mem (List.mem_enum_iff_getElem?.mp hp)
    have hinv := parseRunF_flex_none rndId (splitLines content).length (splitLines content)
      wPState (by intro h2 hh2 it2 hit2; cases hh2) (by intro it2 hit2; cases hit2)
    have hnone : ∀ it2 ∈ p.2.items, it2.flexGroupId = none := by
      rcases List.mem_append.mp hpmem with hfin | hcur
      · exact hinv.1 p.2 hfin
      · have : p.2 = (parseRunF rndId (splitLines content).length (splitLines content)
            wPState).cur := by simpa using hcur
        rw [this]
        exact hinv.2
    have hitems : h.items = flexGo p.2.title (rndFlex p.1) 0 flexInit p.2.items := by
      rw [← hpeq]
    rw [hitems] at hk
    obtain ⟨s, hs, hne⟩ := (flexGo_sound p.2.title (rndFlex p.1) p.2.items 0 flexInit
      (Or.inl rfl) hnone k it hk hflex).2.2.2.2
    rw [hs]
    intro hc
    injection hc with hc
    exact hne hc

/-- The parsed two-bullet group. -/
def cexFlexState : GameState :=
  parseMarkdownToGame cexRndId cexRndFlex "# A\n- x\n- y" "f" "p"

/-- Witness for C3: the first bullet of the parsed group carries a flex id and
is indeed an unordered list item. -/
theorem flexGroup_soundness_witness :
    isUnorderedText ((cexFlexState.headings.headD default).items.headD default).text = true :=
  (flexGroup_soundness cexRndId cexRndFlex "# A\n- x\n- y" "f" "p"
    (cexFlexState.headings.headD default) (by decide) 0
    ((cexFlexState.headings.headD default).items.headD default) (by decide) (by decide)).1

/-- `pushItem` appends exactly one fragment. -/
lemma pushItem_items (rndId : Nat → String) (c : Nat) (h : GameHeading) (text : String)
    (isStatic isSub : Bool) (blockId : Option String) :
    (pushItem rndId c h text isStatic isSub blockId).items =
      h.items ++ [mkFragment rndId c h.title h.items.length text isStatic isSub blockId] := rfl

/-- The pushed rows all carry the block id of the block being parsed. -/
lemma pushRows_items_blockId (rndId : Nat → String) (bId : String) :
    ∀ (rows : List String) (c : Nat) (h : GameHeading),
      ∃ newItems, (pushRows rndId bId rows c h).items = h.items ++ newItems ∧
        ∀ it ∈ newItems, it.blockId = some bId := by
  intro rows
  induction rows with
  | nil => intro c h; exact ⟨[], by simp [pushRows], by intro it hit; cases hit⟩
  | cons row more ih =>
    intro c h
    obtain ⟨new2, hnew2, hblock2⟩ := ih (c + 1) (pushItem rndId c h row false false (some bId))
    refine ⟨mkFragment rndId c h.title h.items.length row false false (some bId) :: new2, ?_, ?_⟩
    · show (pushRows rndId bId more (c + 1) (pushItem rndId c h row false false (some bId))).items = _
      rw [hnew2, pushItem_items]
      simp
    · intro it hit
      rcases List.mem_cons.mp hit with rfl | hit2
      · rfl
      · exact hblock2 it hit2

/-- C5: the fragments a table step pushes all share the synthesized
`table-i` block id; the fragments a callout step pushes all share the
synthesized `callout-i` block id; and `BlockFullyRestored(blockId)` holds iff
every fragment of the group carrying that block id is `SlotCorrect` at its
own index. -/
theorem block_atomicity (rndId : Nat → String) (line : String) (rest : List String)
    (st : PState) (blockId : String) (heading : GameHeading)
    (slots : List (Option GameItem)) :
    (∀ (r1 : String) (rest2 : List String), rest = r1 :: rest2 →
      startsWithChars (jsTrim line) ['|'] = true → sepMatch (jsTrim r1) = true →
      ∃ newItems, (parseStep rndId line rest st).2.cur.items = st.cur.items ++ newItems ∧
        newItems ≠ [] ∧ ∀ it ∈ newItems, it.blockId = some ("table-" ++ Nat.repr st.i)) ∧
    (headingParse line = none → line ≠ "" →
      (startsWithChars (jsTrim line) ['|'] &&
        sepMatch (jsTrim (rest.head?.getD ""))) = false →
      startsWithChars (jsTrim line) ['>', ' ', '[', '!'] = true →
      ∃ newItems, (parseStep rndId line rest st).2.cur.items = st.cur.items ++ newItems ∧
        newItems ≠ [] ∧ ∀ it ∈ newItems, it.blockId = some ("callout-" ++ Nat.repr st.i)) ∧
    (isBlockFullyRestored blockId heading slots = true ↔
      ∀ (idx : Nat) (it : GameItem), heading.items[idx]? = some it →
        it.blockId = some blockId →
        isSlotCorrect ((slots[idx]?).getD none) idx heading = true) := by
  refine ⟨?_, ?_, ?_⟩
  · intro r1 rest2 hrest hpipe hsep
    subst hrest
    rw [parseStep_table rndId rest2 st hpipe hsep]
    obtain ⟨new2, hnew2, hblock2⟩ := pushRows_items_blockId rndId ("table-" ++ Nat.repr st.i)
      (rest2.takeWhile (fun l => startsWithChars (jsTrim l) ['|'])) (st.c + 2)
      (pushItem rndId (st.c + 1)
        (pushItem rndId st.c st.cur line true false (some ("table-" ++ Nat.repr st.i)))
        r1 true false (some ("table-" ++ Nat.repr st.i)))
    refine ⟨mkFragment rndId st.c st.cur.title st.cur.items.length line true false
        (some ("table-" ++ Nat.repr st.i)) ::
      mkFragment rndId (st.c + 1) st.cur.title (st.cur.items.length + 1) r1 true false
        (some ("table-" ++ Nat.repr st.i)) :: new2, ?_, by simp, ?_⟩
    · show (pushRows _ _ _ _ _).items = _
      rw [hnew2, pushItem_items, pushItem_items]
      simp [pushItem]
    · intro it hit
      rcases List.mem_cons.mp hit with rfl | hit2
      · rfl
      · rcases List.mem_cons.mp hit2 with rfl | hit3
        · rfl
        · exact hblock2 it hit3
  · intro hh hne hnotsep hco
    rw [parseStep_callout rndId rest st hh hne hnotsep hco]
    obtain ⟨new2, hnew2, hblock2⟩ := pushRows_items_blockId rndId ("callout-" ++ Nat.repr st.i)
      (rest.takeWhile (fun l => startsWithChars (jsTrim l) ['>'])) (st.c + 1)
      (pushItem rndId st.c st.cur line true false (some ("callout-" ++ Nat.repr st.i)))
    refine ⟨mkFragment rndId st.c st.cur.title st.cur.items.length line true false
        (some ("callout-" ++ Nat.repr st.i)) :: new2, ?_, by simp, ?_⟩
    · show (pushRows _ _ _ _ _).items = _
      rw [hnew2, pushItem_items]
      simp
    · intro it hit
      rcases List.mem_cons.mp hit with rfl | hit2
      · rfl
      · exact hblock2 it hit2
  · unfold isBlockFullyRestored
    rw [List.all_eq_true]
    constructor
    · intro hall idx it hidx hblock
      apply hall
      apply List.mem_map.mpr
      refine ⟨(idx, it), ?_, rfl⟩
      apply List.mem_filter.mpr
      refine ⟨List.mem_enum_iff_getElem?.mpr hidx, by simpa using hblock⟩
    · intro hfor idx hidx
      obtain ⟨p, hp, rfl⟩ := List.mem_map.mp hidx
      have hpe := List.mem_of_mem_filter hp
      have hpf := List.of_mem_filter hp
      exact hfor p.1 p.2 (List.mem_enum_iff_getElem?.mp hpe) (by simpa using hpf)

/-- The parsed four-fragment table document. -/
def cexTableState : GameState :=
  parseMarkdownToGame cexRndId cexRndFlex "| H |\n|---|\n| r1 |\n| r2 |" "f" "p"

/-- The table group, fully restored (every fragment in its own slot). -/
def cexTableHeading : GameHeading := cexTableState.headings.headD default

/-- Slots of the fully restored table. -/
def cexTableSlots : List (Option GameItem) := cexTableHeading.items.map some

/-- Witness for C5: in the fully restored table, `BlockFullyRestored` implies
the header row is `SlotCorrect` at its index. -/
theorem block_atomicity_witness :
    isSlotCorrect ((cexTableSlots[0]?).getD none) 0 cexTableHeading = true :=
  (block_atomicity cexRndId "" [] wPState "table-0" cexTableHeading cexTableSlots).2.2.mp
    (by decide) 0 (cexTableHeading.items.headD default) (by decide) (by decide)

/-- All fragments of a parse state, in the order they were pushed. -/
def PState.allItems (st : PState) : List GameItem :=
  (st.finished.map GameHeading.items).flatten ++ st.cur.items

/-- The suffix after the last dash of `x ++ "-" ++ r` is `r` when `r` is
dash-free. -/
lemma afterLastDash_append {x r : String} (hr : ∀ c ∈ r.data, c ≠ '-') :
    afterLastDash (x ++ "-" ++ r) = r := by
  unfold afterLastDash
  have hd : (x ++ "-" ++ r).data.reverse = r.data.reverse ++ '-' :: x.data.reverse := by
    rw [String.data_append, String.data_append]
    simp [List.reverse_append]
  rw [hd]
  rw [takeWhile_append_not _ r.data.reverse '-' x.data.reverse ?hall ?hy]
  case hall =>
    intro c hc
    have hm : c ∈ r.data := List.mem_reverse.mp hc
    simpa using hr c hm
  case hy => decide
  rw [List.reverse_reverse]

/-- The dash suffix of a fresh fragment's id is its random draw. -/
lemma mkFragment_suffix (rndId : Nat → String) (c : Nat) (title : String) (pos : Nat)
    (text : String) (isStatic isSub : Bool) (blockId : Option String)
    (hdash : ∀ ch ∈ (rndId c).data, ch ≠ '-') :
    afterLastDash (mkFragment rndId c title pos text isStatic isSub blockId).id = rndId c := by
  show afterLastDash (title ++ "-" ++ Nat.repr pos ++ "-" ++ rndId c) = rndId c
  exact afterLastDash_append hdash

/-- Dash suffixes of the ids pushed by `pushRows`: the consecutive draws. -/
lemma pushRows_suffixes (rndId : Nat → String)
    (hdash : ∀ n, ∀ ch ∈ (rndId n).data, ch ≠ '-') (bId : String) :
    ∀ (rows : List String) (c : Nat) (h : GameHeading),
      (pushRows rndId bId rows c h).items.map (fun it => afterLastDash it.id) =
        h.items.map (fun it => afterLastDash it.id) ++ (List.range' c rows.length).map rndId := by
  intro rows
  induction rows with
  | nil => intro c h; simp [pushRows]
  | cons row more ih =>
    intro c h
    show (pushRows rndId bId more (c + 1) _).items.map _ = _
    rw [ih (c + 1) _, pushItem_items, List.map_append]
    rw [List.map_singleton, mkFragment_suffix rndId c _ _ _ _ _ _ (hdash c)]
    rw [List.length_cons, List.range'_succ, List.map_cons]
    simp

/-- Mapping over the items of a state whose loop fields were updated. -/
lemma allItems_map_pushcur (st : PState) (cur2 : GameHeading) (i2 c2 : Nat)
    (f : GameItem → String) :
    (PState.allItems { st with i := i2, c := c2, cur := cur2 }).map f =
      ((st.finished.map GameHeading.items).flatten).map f ++ cur2.items.map f := by
  unfold PState.allItems
  simp [List.map_append]

/-- Mapping over the items of a plain state. -/
lemma allItems_map (st : PState) (f : GameItem → String) :
    (st.allItems).map f =
      ((st.finished.map GameHeading.items).flatten).map f ++ st.cur.items.map f := by
  unfold PState.allItems
  simp [List.map_append]

/-- One parse step only appends fragments, and their dash suffixes are the
consecutive random draws starting at `rndId st.c`. -/
lemma parseStep_suffixes (rndId : Nat → String)
    (hdash : ∀ n, ∀ ch ∈ (rndId n).data, ch ≠ '-') (line : String) (rest : List String)
    (st : PState) :
    st.c ≤ (parseStep rndId line rest st).2.c ∧
    ((parseStep rndId line rest st).2.allItems).map (fun it => afterLastDash it.id) =
      (st.allItems).map (fun it => afterLastDash it.id) ++
        (List.range' st.c ((parseStep rndId line rest st).2.c - st.c)).map rndId := by
  by_cases hbl : line = ""
  · subst hbl
    rw [parseStep_blank]
    refine ⟨Nat.le_refl _, ?_⟩
    simp [PState.allItems]
  · cases hhp : headingParse line with
    | some lt =>
      by_cases hle : lt.1 ≤ 2
      · rw [parseStep_heading_le2 rndId rest st hhp hle]
        refine ⟨Nat.le_refl _, ?_⟩
        simp only [Nat.sub_self, List.range'_zero, List.map_nil, List.append_nil]
        unfold PState.allItems
        dsimp only
        by_cases hcnt : st.cur.items.length > 0
        · rw [if_pos hcnt]
          simp
        · rw [if_neg hcnt]
          have hcur : st.cur.items = [] := List.length_eq_zero.mp (by omega)
          rw [hcur]
      · rw [parseStep_subheading rndId rest st hhp hle]
        refine ⟨Nat.le_succ _, ?_⟩
        rw [allItems_map_pushcur, allItems_map, pushItem_items, List.map_append,
          List.map_singleton, mkFragment_suffix rndId st.c _ _ _ _ _ _ (hdash st.c)]
        simp [List.range'_succ]
    | none =>
      by_cases htab : (startsWithChars (jsTrim line) ['|'] &&
          sepMatch (jsTrim (rest.head?.getD ""))) = true
      · rw [Bool.and_eq_true] at htab
        obtain ⟨hpipe, hsep0⟩ := htab
        obtain ⟨r1, rest2, hrest⟩ : ∃ r1 rest2, rest = r1 :: rest2 := by
          cases hr : rest with
          | nil =>
            rw [hr] at hsep0
            rw [show (([] : List String).head?.getD "") = "" from rfl] at hsep0
            rw [show jsTrim "" = "" from rfl, sepMatch_empty] at hsep0
            cases hsep0
          | cons a b => exact ⟨a, b, rfl⟩
        subst hrest
        have hsep : sepMatch (jsTrim r1) = true := hsep0
        rw [parseStep_table rndId rest2 st hpipe hsep]
        refine ⟨by dsimp only; omega, ?_⟩
        rw [allItems_map_pushcur, allItems_map]
        rw [pushRows_suffixes rndId hdash, pushItem_items, pushItem_items,
          List.map_append, List.map_append, List.map_singleton, List.map_singleton,
          mkFragment_suffix rndId st.c _ _ _ _ _ _ (hdash st.c),
          mkFragment_suffix rndId (st.c + 1) _ _ _ _ _ _ (hdash (st.c + 1))]
        have hlen : st.c + 2 +
            (rest2.takeWhile (fun l => startsWithChars (jsTrim l) ['|'])).length - st.c =
            2 + (rest2.takeWhile (fun l => startsWithChars (jsTrim l) ['|'])).length := by
          omega
        rw [hlen]
        rw [show 2 + (rest2.takeWhile (fun l => startsWithChars (jsTrim l) ['|'])).length =
          ((rest2.takeWhile (fun l => startsWithChars (jsTrim l) ['|'])).length + 1) + 1
          from by omega]
        rw [List.range'_succ, List.range'_succ, List.map_cons, List.map_cons]
        simp
      · by_cases hco : startsWithChars (jsTrim line) ['>', ' ', '[', '!'] = true
        · rw [parseStep_callout rndId rest st hhp hbl (by simpa using htab) hco]
          refine ⟨by dsimp only; omega, ?_⟩
          rw [allItems_map_pushcur, allItems_map]
          rw [pushRows_suffixes rndId hdash, pushItem_items, List.map_append,
            List.map_singleton, mkFragment_suffix rndId st.c _ _ _ _ _ _ (hdash st.c)]
          have hlen : st.c + 1 +
              (rest.takeWhile (fun l => startsWithChars (jsTrim l) ['>'])).length - st.c =
              (rest.takeWhile (fun l => startsWithChars (jsTrim l) ['>'])).length + 1 := by
            omega
          rw [hlen, List.range'_succ, List.map_cons]
          simp
        · rw [parseStep_ordinary rndId rest st hhp hbl (by simpa using htab)
            (by simpa using hco)]
          refine ⟨Nat.le_succ _, ?_⟩
          rw [allItems_map_pushcur, allItems_map, pushItem_items, List.map_append,
            List.map_singleton, mkFragment_suffix rndId st.c _ _ _ _ _ _ (hdash st.c)]
          simp [List.range'_succ]

/-- Concatenation of consecutive ranges. -/
lemma range'_glue (a b c : Nat) (hab : a ≤ b) (hbc : b ≤ c) :
    List.range' a (b - a) ++ List.range' b (c - b) = List.range' a (c - a) := by
  have h := List.range'_append a (b - a) (c - b) 1
  rw [show a + 1 * (b - a) = b by omega, show c - b + (b - a) = c - a by omega] at h
  simpa using h

/-- Through the whole loop, the dash suffixes of all fragment ids are exactly
the consecutive random draws consumed so far. -/
lemma parseRunF_suffixes (rndId : Nat → String)
    (hdash : ∀ n, ∀ ch ∈ (rndId n).data, ch ≠ '-') :
    ∀ (fuel : Nat) (lines : List String) (st : PState),
      st.c ≤ (parseRunF rndId fuel lines st).c ∧
      ((parseRunF rndId fuel lines st).allItems).map (fun it => afterLastDash it.id) =
        (st.allItems).map (fun it => afterLastDash it.id) ++
          (List.range' st.c ((parseRunF rndId fuel lines st).c - st.c)).map rndId := by
  intro fuel
  induction fuel with
  | zero =>
    intro lines st
    have hred : parseRunF rndId 0 lines st = st := by
      cases lines <;> rfl
    rw [hred]
    exact ⟨Nat.le_refl _, by simp⟩
  | succ f ih =>
    intro lines st
    cases lines with
    | nil =>
      rw [parseRunF_nil]
      exact ⟨Nat.le_refl _, by simp⟩
    | cons line rest =>
      rw [parseRunF_cons]
      obtain ⟨hle1, hstep⟩ := parseStep_suffixes rndId hdash line rest st
      obtain ⟨hle2, hrun⟩ := ih (parseStep rndId line rest st).1 (parseStep rndId line rest st).2
      refine ⟨Nat.le_trans hle1 hle2, ?_⟩
      rw [hrun, hstep, List.append_assoc, ← List.map_append]
      rw [range'_glue st.c (parseStep rndId line rest st).2.c
        (parseRunF rndId f (parseStep rndId line rest st).1
          (parseStep rndId line rest st).2).c hle1 hle2]

/-- The flexible-group pass preserves the joined fragment-id list. -/
lemma applyFlex_join_map_id (rndFlex : Nat → Nat → String) (hs : List GameHeading) :
    ((((applyFlex rndFlex hs).map GameHeading.items).flatten).map (fun it => it.id)) =
      (((hs.map GameHeading.items).flatten).map (fun it => it.id)) := by
  suffices hgen : ∀ n : Nat,
      ((((hs.enumFrom n).map (fun p => { p.2 with
        items := flexGo p.2.title (rndFlex p.1) 0 flexInit p.2.items })).map
          GameHeading.items).flatten).map (fun it => it.id) =
        (((hs.map GameHeading.items).flatten).map (fun it => it.id)) by
    exact hgen 0
  induction hs with
  | nil => intro n; rfl
  | cons h t ih =>
    intro n
    have hred : (h :: t).enumFrom n = (n, h) :: t.enumFrom (n + 1) := rfl
    rw [hred]
    simp only [List.map_cons, List.flatten_cons, List.map_append]
    rw [flexGo_map_id, ih (n + 1)]

/-- C7 (amended): the fragment ids of the whole parsed document are pairwise
distinct, provided the id oracle draws are pairwise distinct and dash-free
(the real draws are random base-36 strings, so distinctness can fail with
small probability — see the counterexample). -/
theorem parsed_ids_nodup (rndId : Nat → String) (rndFlex : Nat → Nat → String)
    (content fileName filePath : String)
    (hinj : ∀ m n : Nat, m ≠ n → rndId m ≠ rndId n)
    (hdash : ∀ n, ∀ ch ∈ (rndId n).data, ch ≠ '-') :
    ((((parseMarkdownToGame rndId rndFlex content fileName filePath).headings.map
      GameHeading.items).flatten).map (fun it => it.id)).Nodup := by
  have hh : (parseMarkdownToGame rndId rndFlex content fileName filePath).headings =
      applyFlex rndFlex
        ((parseRunF rndId (splitLines content).length (splitLines content) wPState).finished
          ++ [(parseRunF rndId (splitLines content).length (splitLines content) wPState).cur]) :=
    rfl
  rw [hh, applyFlex_join_map_id]
  have hall : (((parseRunF rndId (splitLines content).length (splitLines content)
      wPState).finished ++ [(parseRunF rndId (splitLines content).length (splitLines content)
      wPState).cur]).map GameHeading.items).flatten =
      (parseRunF rndId (splitLines content).length (splitLines content) wPState).allItems := by
    unfold PState.allItems
    simp
  rw [hall]
  have hsfx := (parseRunF_suffixes rndId hdash (splitLines content).length
    (splitLines content) wPState).2
  have hstart : (PState.allItems wPState).map (fun it => afterLastDash it.id) = [] := rfl
  rw [hstart, List.nil_append] at hsfx
  have hrange : (List.range' wPState.c ((parseRunF rndId (splitLines content).length
      (splitLines content) wPState).c - wPState.c)).map rndId =
      (List.range ((parseRunF rndId (splitLines content).length (splitLines content)
        wPState).c)).map rndId := by
    show (List.range' 0 ((parseRunF rndId (splitLines content).length
      (splitLines content) wPState).c - 0)).map rndId = _
    rw [Nat.sub_zero, List.range_eq_range']
  rw [hrange] at hsfx
  have hnodup : (((parseRunF rndId (splitLines content).length (splitLines content)
      wPState).allItems).map (fun it => afterLastDash it.id)).Nodup := by
    rw [hsfx]
    refine List.Nodup.map ?_ (List.nodup_range _)
    intro a b hab
    by_contra hne
    exact hinj a b hne hab
  have hcomp : ((parseRunF rndId (splitLines content).length (splitLines content)
      wPState).allItems).map (fun it => afterLastDash it.id) =
      (((parseRunF rndId (splitLines content).length (splitLines content)
        wPState).allItems).map (fun it => it.id)).map afterLastDash := by
    rw [List.map_map]
    rfl
  rw [hcomp] at hnodup
  exact List.Nodup.of_map _ hnodup

/-- C7 counterexample: with two identically titled groups holding fragments at
equal positions, colliding random draws (here the constant draw "s") give two
distinct fragments the same id "A-0-s", so ids are not pairwise distinct. -/
theorem parsed_ids_nodup_counterexample :
    ¬ ((((parseMarkdownToGame (fun _ => "s") cexRndFlex "# A\nx\n# A\nx" "f"
      "p").headings.map GameHeading.items).flatten).map (fun it => it.id)).Nodup := by
  decide

/-- An injective, dash-free id oracle for the witness. -/
def wRndId : Nat → String := fun n => String.mk (List.replicate n 'a')

/-- Witness for the amended C7: with distinct dash-free draws, even the
duplicate-title document gets pairwise distinct ids. -/
theorem parsed_ids_nodup_witness :
    ((((parseMarkdownToGame wRndId cexRndFlex "# A\nx\n# A\nx" "f" "p").headings.map
      GameHeading.items).flatten).map (fun it => it.id)).Nodup :=
  parsed_ids_nodup wRndId cexRndFlex "# A\nx\n# A\nx" "f" "p"
    (fun m n hmn heq => hmn (by
      have hlen := congrArg (fun s => s.data.length) heq
      simpa [wRndId] using hlen))
    (fun n ch hch => by
      have hmem : ch ∈ List.replicate n 'a' := by simpa [wRndId] using hch
      rw [List.eq_of_mem_replicate hmem]
      decide)
